import Mathlib

/-!
# The LOOS selection kernel: opcodes of `KernelActions.hpp`

A shallow embedding of the `Action` class hierarchy of `src/KernelActions.hpp`.
Every `execute()` body is transcribed statement by statement into a small
state-and-fault monad over the operand stack.  The headers the file includes
but which are not part of the sources at hand (`KernelValue.hpp`,
`KernelStack.hpp`, `Atom.hpp`) are modelled from the specification and are
marked as such; `boost::regex` is an external library and enters as a
parameter, called with the syntax options the code passes; what the opcodes
require of it is stated for plain patterns (`FaithfulOnPlain`).

The file also embeds the coordinate class of `src/Coord.hpp` (over exact
rationals), the system and trajectory factories of `src/sfactories.cpp` and
`scalePower` of `src/Tools/coverlap.cpp`.
-/

namespace loos

/-! ## Faults -/

/-- The fault taxonomy of the specification (section 7).  The C++ code signals
each of them by throwing an exception: `hasAtom` throws "No atom set"
(`UnboundAtom`), the logical combinators throw "Invalid operand(s) to ..."
(`TypeMismatch`), a `boost::regex` constructor throws on a malformed pattern
(`InvalidPattern`). -/
inductive Fault where
  | StackUnderflow
  | TypeMismatch
  | UnboundAtom
  | InvalidPattern
  | MalformedProgram
  deriving DecidableEq, Repr

/-! ## Values (`KernelValue.hpp`) -/

/-- Modelled from the spec: `KernelValue.hpp` (struct `Value`) is not among the
sources.  Section 3: a Value has exactly one of three shapes, Integer, Float or
Text.  The constructor names are the type tags the code tests
(`Value::INT` in `logicalAnd`), the field names the members it reads
(`v1.itg`).  The C++ `int` payload is taken as an unbounded integer (no opcode
does arithmetic on it) and the floating-point payload over the exact
rationals. -/
inductive Value where
  | INT (itg : Int)
  | FLOAT (flt : ℚ)
  | STRING (str : String)
  deriving DecidableEq

/-- The conversion `Value v(b)` of a C++ `bool` as in `Value v(binComp() == 0)`
and `Value u(v1.itg && v2.itg)`: the `bool` is promoted to `int`, so the
`Value(int)` constructor is chosen and the value is Integer 1 or Integer 0. -/
def Value.ofBool (b : Bool) : Value :=
  Value.INT (if b then 1 else 0)

/-- Modelled from the spec: `Value::getString` is declared in the missing
`KernelValue.hpp`.  The pattern-match opcodes pop "a Text operand"; a value of
another shape is an operator applied to an incompatible shape, `TypeMismatch`
(section 7). -/
def Value.getString : Value → Except Fault String
  | Value.STRING str => Except.ok str
  | _ => Except.error Fault.TypeMismatch

/-- The type tag `Value::ValueType` that the logical combinators test
(`v1.type == Value::INT`). -/
inductive ValueType where
  | STRING
  | INT
  | FLOAT
  deriving DecidableEq, Repr

/-- The member `type` of a `Value`. -/
def Value.type : Value → ValueType
  | Value.INT _ => ValueType.INT
  | Value.FLOAT _ => ValueType.FLOAT
  | Value.STRING _ => ValueType.STRING

/-- Two values of the same numeric kind: both Integer or both Float. -/
def Value.sameNumericKind : Value → Value → Bool
  | Value.INT _, Value.INT _ => true
  | Value.FLOAT _, Value.FLOAT _ => true
  | _, _ => false

/-- The UTF-8 bytes of a text, the content of a C++ `std::string`. -/
def textBytes (s : String) : List Nat :=
  s.toUTF8.data.toList.map UInt8.toNat

/-- The UTF-8 encoding of a code point in arithmetic form: what
`String.utf8EncodeChar` computes with shifts and masks. -/
def utf8Nat (n : Nat) : List Nat :=
  if n ≤ 0x7f then [n]
  else if n ≤ 0x7ff then [n / 64 % 32 + 192, n % 64 + 128]
  else if n ≤ 0xffff then [n / 4096 % 16 + 224, n / 64 % 64 + 128, n % 64 + 128]
  else [n / 262144 % 8 + 240, n / 4096 % 64 + 128, n / 64 % 64 + 128, n % 64 + 128]

/-- Three-way result of comparing two elements of a linear order, as the C
convention has it: negative, zero or positive. -/
def threeWay {α : Type} [LT α] [DecidableRel (fun a b : α => a < b)] [DecidableEq α]
    (a b : α) : Int :=
  if a < b then -1 else if a = b then 0 else 1

/-- Byte-wise lexicographic three-way comparison of two byte sequences. -/
def compareBytes : List Nat → List Nat → Int
  | [], [] => 0
  | [], _ :: _ => -1
  | _ :: _, [] => 1
  | a :: as, b :: bs => if a < b then -1 else if b < a then 1 else compareBytes as bs

/-- Modelled from the spec: `compare` is declared in the missing
`KernelValue.hpp`.  Section 3: Integer-vs-Integer by numeric value;
Float-vs-Float by numeric value; Integer-vs-Float by widening the Integer to
Float; Text-vs-Text by byte-wise lexicographic order; any Text-vs-numeric
pairing is rejected with `TypeMismatch`.  The result is the `int` that
`binComp` returns: negative, zero or positive. -/
def compare : Value → Value → Except Fault Int
  | Value.INT a, Value.INT b => Except.ok (threeWay a b)
  | Value.FLOAT a, Value.FLOAT b => Except.ok (threeWay a b)
  | Value.INT a, Value.FLOAT b => Except.ok (threeWay (a : ℚ) b)
  | Value.FLOAT a, Value.INT b => Except.ok (threeWay a (b : ℚ))
  | Value.STRING a, Value.STRING b => Except.ok (compareBytes (textBytes a) (textBytes b))
  | Value.STRING _, Value.INT _ => Except.error Fault.TypeMismatch
  | Value.STRING _, Value.FLOAT _ => Except.error Fault.TypeMismatch
  | Value.INT _, Value.STRING _ => Except.error Fault.TypeMismatch
  | Value.FLOAT _, Value.STRING _ => Except.error Fault.TypeMismatch

/-! ## The operand stack (`KernelStack.hpp`) -/

/-- Modelled from the spec: `KernelStack.hpp` (class `ValueStack`) is not among
the sources.  Section 3: an ordered sequence of Value, top = most recently
pushed.  The top of the stack is the LAST element of the list. -/
abbrev ValueStack := List Value

/-- A computation of the kernel: it runs on the operand stack that the
`stack` pointer designates, and either returns a result or throws; in both
cases the stack is left in the state the computation reached. -/
def VM (α : Type) : Type := ValueStack → Except Fault α × ValueStack

instance : Monad VM where
  pure a := fun s => (Except.ok a, s)
  bind m f := fun s =>
    match m s with
    | (Except.ok a, s1) => f a s1
    | (Except.error e, s1) => (Except.error e, s1)

/-- Throwing an exception: `throw(runtime_error(...))`. -/
def VM.fail {α : Type} (e : Fault) : VM α := fun s => (Except.error e, s)

/-- A fallible pure computation run inside the kernel. -/
def VM.ofExcept {α : Type} : Except Fault α → VM α
  | Except.ok a => pure a
  | Except.error e => VM.fail e

namespace ValueStack

/-- Modelled from the spec: `push(v)` always succeeds, appends to top. -/
def push (val : Value) : VM Unit := fun s => (Except.ok (), s ++ [val])

/-- Modelled from the spec: `pop() -> Value` removes and returns top; fails
with `StackUnderflow` if empty. -/
def pop : VM Value := fun s =>
  match s.getLast? with
  | none => (Except.error Fault.StackUnderflow, s)
  | some v => (Except.ok v, s.dropLast)

/-- Modelled from the spec: `dup()` duplicates top in place; fails with
`StackUnderflow` if empty. -/
def dup : VM Unit := fun s =>
  match s.getLast? with
  | none => (Except.error Fault.StackUnderflow, s)
  | some v => (Except.ok (), s ++ [v])

/-- Modelled from the spec: `drop()` removes top without returning it; fails
with `StackUnderflow` if empty. -/
def drop : VM Unit := fun s =>
  match s.getLast? with
  | none => (Except.error Fault.StackUnderflow, s)
  | some _ => (Except.ok (), s.dropLast)

end ValueStack

/-! ## Atoms (`Atom.hpp`) and patterns (`boost::regex`) -/

/-- Modelled from the spec: `Atom.hpp` is not among the sources.  Section 6:
read-only accessors name (text), identifier (integer), residue name (text),
residue identifier (integer), segment identifier (text); the field names are
the accessors the opcodes call. -/
structure Atom where
  name : String
  id : Int
  resname : String
  resid : Int
  segid : String
  deriving DecidableEq

/-- The shared pointer `pAtom`: `none` is the null pointer `pAtom()`. -/
abbrev pAtom := Option Atom

/-- A compiled `boost::regex`, represented by what `boost::regex_search` answers
for it on each subject text. -/
abbrev Regex := String → Bool

/-- The syntax options a `boost::regex` is constructed with, as far as the
opcodes use them: `boost::regex::perl` (Perl syntax) and `boost::regex::icase`
(matching without regard to case). -/
structure SyntaxFlags where
  perl : Bool
  icase : Bool
  deriving DecidableEq

/-- The options `boost::regex::perl|boost::regex::icase` that `matchRegex` and
`matchStringAsRegex` pass to the constructor. -/
def perl_icase : SyntaxFlags := { perl := true, icase := true }

/-- The constructor `boost::regex(s, flags)` of the external library: a
parameter of the development.  `none` stands for the exception it throws on a
malformed pattern. -/
abbrev RegexCompiler := String → SyntaxFlags → Option Regex

/-- The call `boost::regex_search(subject, regexp)`. -/
def regex_search (subject : String) (regexp : Regex) : Bool := regexp subject

/-! ## Actions -/

/-- The concrete subclass of `Action` an object belongs to, together with the
data members that subclass declares. -/
inductive Kind where
  | pushString (val : Value)
  | pushInt (val : Value)
  | pushFloat (val : Value)
  | drop
  | dup
  | equals
  | lessThan
  | lessThanEquals
  | greaterThan
  | greaterThanEquals
  | matchRegex (regexp : Regex) (what : String)
  | matchStringAsRegex
  | pushAtomName
  | pushAtomId
  | pushAtomResname
  | pushAtomResid
  | pushAtomSegid
  | logicalAnd
  | logicalOr
  | logicalNot

/-- An object of class `Action`: the base-class members `atom` and `my_name`
and the subclass part.  The member `stack` (a pointer to the data stack, set
by `setStack`) is not a field: the stack it points to is the state threaded
through `VM`. -/
structure Action where
  atom : pAtom
  my_name : String
  kind : Kind

/-- The base constructor `Action(const string s) : stack(0), atom(pAtom()), my_name(s)`. -/
def Action.mk0 (s : String) (k : Kind) : Action :=
  { atom := none, my_name := s, kind := k }

/-- The method `void setAtom(pAtom pa) { atom = pa; }`. -/
def Action.setAtom (a : Action) (pa : pAtom) : Action :=
  { a with atom := pa }

/-- Constructor `pushString(const string str) : Action("pushString"), val(str)`. -/
def pushString (str : String) : Action := Action.mk0 "pushString" (Kind.pushString (Value.STRING str))

/-- Constructor `pushInt(const int i) : Action("pushInt"), val(i)`. -/
def pushInt (i : Int) : Action := Action.mk0 "pushInt" (Kind.pushInt (Value.INT i))

/-- Constructor `pushFloat(const float f) : Action("pushFloat"), val(f)`. -/
def pushFloat (f : ℚ) : Action := Action.mk0 "pushFloat" (Kind.pushFloat (Value.FLOAT f))

/-- Constructor `drop() : Action("drop")`. -/
def drop : Action := Action.mk0 "drop" Kind.drop

/-- Constructor `dup() : Action("dup")`. -/
def dup : Action := Action.mk0 "dup" Kind.dup

/-- Constructor `equals() : Action("==")`. -/
def equals : Action := Action.mk0 "==" Kind.equals

/-- Constructor `lessThan() : Action("<")`. -/
def lessThan : Action := Action.mk0 "<" Kind.lessThan

/-- Constructor `lessThanEquals() : Action("<=")`. -/
def lessThanEquals : Action := Action.mk0 "<=" Kind.lessThanEquals

/-- Constructor `greaterThan() : Action(">")`. -/
def greaterThan : Action := Action.mk0 ">" Kind.greaterThan

/-- Constructor `greaterThanEquals() : Action(">=")`. -/
def greaterThanEquals : Action := Action.mk0 ">=" Kind.greaterThanEquals

/-- Constructor `matchRegex(const string s) : Action("matchRegex"),
regexp(s, boost::regex::perl|boost::regex::icase), what(s)`: the pattern is
compiled by the constructor, which throws when the pattern is malformed. -/
def matchRegex (re : RegexCompiler) (s : String) : Except Fault Action :=
  match re s perl_icase with
  | some regexp => Except.ok (Action.mk0 "matchRegex" (Kind.matchRegex regexp s))
  | none => Except.error Fault.InvalidPattern

/-- Constructor `matchStringAsRegex() : Action("matchStringAsRegex")`. -/
def matchStringAsRegex : Action := Action.mk0 "matchStringAsRegex" Kind.matchStringAsRegex

/-- Constructor `pushAtomName() : Action("pushAtomName")`. -/
def pushAtomName : Action := Action.mk0 "pushAtomName" Kind.pushAtomName

/-- Constructor `pushAtomId() : Action("pushAtomId")`. -/
def pushAtomId : Action := Action.mk0 "pushAtomId" Kind.pushAtomId

/-- Constructor `pushAtomResname() : Action("pushAtomResname")`. -/
def pushAtomResname : Action := Action.mk0 "pushAtomResname" Kind.pushAtomResname

/-- Constructor `pushAtomResid() : Action("pushAtomResid")`. -/
def pushAtomResid : Action := Action.mk0 "pushAtomResid" Kind.pushAtomResid

/-- Constructor `pushAtomSegid() : Action("pushAtomSegid")`. -/
def pushAtomSegid : Action := Action.mk0 "pushAtomSegid" Kind.pushAtomSegid

/-- Constructor `logicalAnd() : Action("&&")`. -/
def logicalAnd : Action := Action.mk0 "&&" Kind.logicalAnd

/-- Constructor `logicalOr() : Action("||")`. -/
def logicalOr : Action := Action.mk0 "||" Kind.logicalOr

/-- Constructor `logicalNot() : Action("!")`. -/
def logicalNot : Action := Action.mk0 "!" Kind.logicalNot

/-- Method `Action::binComp`: compare the top two items on the stack.
`Value v1 = stack->pop(); Value v2 = stack->pop(); return(compare(v2, v1));` -/
def Action.binComp : VM Int := do
  let v1 ← ValueStack.pop
  let v2 ← ValueStack.pop
  VM.ofExcept (compare v2 v1)

/-- Method `Action::hasAtom`: `if (atom == 0) throw(runtime_error("No atom set"));`
The atom is handed on to the caller, which dereferences it next. -/
def Action.hasAtom (a : Action) : VM Atom :=
  match a.atom with
  | none => VM.fail Fault.UnboundAtom
  | some at0 => pure at0

/-- The virtual method `execute()`, one arm per subclass. -/
def Action.execute (re : RegexCompiler) (a : Action) : VM Unit :=
  match a.kind with
  -- stack->push(val);
  | Kind.pushString val => ValueStack.push val
  | Kind.pushInt val => ValueStack.push val
  | Kind.pushFloat val => ValueStack.push val
  -- stack->drop();
  | Kind.drop => ValueStack.drop
  -- stack->dup();
  | Kind.dup => ValueStack.dup
  -- Value v(binComp() == 0); stack->push(v);
  | Kind.equals => do
      let c ← Action.binComp
      ValueStack.push (Value.ofBool (decide (c = 0)))
  -- Value v(binComp() < 0); stack->push(v);
  | Kind.lessThan => do
      let c ← Action.binComp
      ValueStack.push (Value.ofBool (decide (c < 0)))
  -- Value v(binComp() <= 0); stack->push(v);
  | Kind.lessThanEquals => do
      let c ← Action.binComp
      ValueStack.push (Value.ofBool (decide (c ≤ 0)))
  -- Value v(binComp() > 0); stack->push(v);
  | Kind.greaterThan => do
      let c ← Action.binComp
      ValueStack.push (Value.ofBool (decide (c > 0)))
  -- Value v(binComp() >= 0); stack->push(v);
  | Kind.greaterThanEquals => do
      let c ← Action.binComp
      ValueStack.push (Value.ofBool (decide (c ≥ 0)))
  -- Value v = stack->pop(); Value r(0);
  -- if (boost::regex_search(v.getString(), regexp)) r.setInt(1); stack->push(r);
  | Kind.matchRegex regexp _ => do
      let v ← ValueStack.pop
      let subject ← VM.ofExcept v.getString
      let r := if regex_search subject regexp then Value.INT 1 else Value.INT 0
      ValueStack.push r
  -- Value v = stack->pop(); boost::regex re(v.getString(), perl|icase);
  -- Value u = stack->pop(); Value r(0);
  -- if (boost::regex_search(u.getString(), re)) r.setInt(1); stack->push(r);
  | Kind.matchStringAsRegex => do
      let v ← ValueStack.pop
      let pattern ← VM.ofExcept v.getString
      let rx ← (match re pattern perl_icase with
        | some rx => pure rx
        | none => VM.fail Fault.InvalidPattern)
      let u ← ValueStack.pop
      let subject ← VM.ofExcept u.getString
      let r := if regex_search subject rx then Value.INT 1 else Value.INT 0
      ValueStack.push r
  -- hasAtom(); Value v(atom->name()); stack->push(v);   (and likewise below)
  | Kind.pushAtomName => do
      let at0 ← a.hasAtom
      ValueStack.push (Value.STRING at0.name)
  | Kind.pushAtomId => do
      let at0 ← a.hasAtom
      ValueStack.push (Value.INT at0.id)
  | Kind.pushAtomResname => do
      let at0 ← a.hasAtom
      ValueStack.push (Value.STRING at0.resname)
  | Kind.pushAtomResid => do
      let at0 ← a.hasAtom
      ValueStack.push (Value.INT at0.resid)
  | Kind.pushAtomSegid => do
      let at0 ← a.hasAtom
      ValueStack.push (Value.STRING at0.segid)
  -- Value v2 = stack->pop(); Value v1 = stack->pop();
  -- if (!(v1.type == Value::INT && v2.type == Value::INT)) throw ...;
  -- Value u(v1.itg && v2.itg); stack->push(u);
  | Kind.logicalAnd => do
      let v2 ← ValueStack.pop
      let v1 ← ValueStack.pop
      match v1, v2 with
      | Value.INT i1, Value.INT i2 => ValueStack.push (Value.ofBool (i1 != 0 && i2 != 0))
      | _, _ => VM.fail Fault.TypeMismatch
  -- Value v1 = stack->pop(); Value v2 = stack->pop();
  -- if (!(v1.type == Value::INT && v2.type == Value::INT)) throw ...;
  -- Value u(v1.itg || v2.itg); stack->push(u);
  | Kind.logicalOr => do
      let v1 ← ValueStack.pop
      let v2 ← ValueStack.pop
      match v1, v2 with
      | Value.INT i1, Value.INT i2 => ValueStack.push (Value.ofBool (i1 != 0 || i2 != 0))
      | _, _ => VM.fail Fault.TypeMismatch
  -- Value v1 = stack->pop(); if (v1.type != Value::INT) throw ...;
  -- Value u(!v1.itg); stack->push(u);
  | Kind.logicalNot => do
      let v1 ← ValueStack.pop
      match v1 with
      | Value.INT i1 => ValueStack.push (Value.ofBool (i1 == 0))
      | _ => VM.fail Fault.TypeMismatch

/-- Modelled from the spec: the driver that replays a program is not among the
sources.  Section 4.4: it applies each opcode in sequence on the shared operand
stack, aborting immediately on the first fault. -/
def executeAll (re : RegexCompiler) : List Action → VM Unit
  | [] => pure ()
  | a :: rest => do
      a.execute re
      executeAll re rest

/-- Modelled from the spec: `bind(atom_context)` of the missing driver
(section 4.4) associates the program with the atom to evaluate next; on the
opcodes this is `setAtom` called on each of them. -/
def bindAtom (pa : pAtom) (prog : List Action) : List Action :=
  prog.map (fun a => a.setAtom pa)

/-- The atom-property opcodes: the subclasses whose `execute` calls `hasAtom`
and dereferences `atom`. -/
def Kind.isAtomProperty : Kind → Bool
  | Kind.pushAtomName => true
  | Kind.pushAtomId => true
  | Kind.pushAtomResname => true
  | Kind.pushAtomResid => true
  | Kind.pushAtomSegid => true
  | _ => false

/-- The shape of a stack: the type tag of each of its values, bottom first. -/
def ValueStack.shape (s : ValueStack) : List ValueType :=
  s.map Value.type

/-- Two outcomes in lockstep: both are results, related by `R`, on stacks of the
same shape; or both are the same fault; or one of them is the fault
`InvalidPattern`, the one fault that depends on the text of a value. -/
def Lockstep {α : Type} (R : α → α → Prop) (r1 r2 : Except Fault α × ValueStack) : Prop :=
  (∃ a1 a2 s1 s2, r1 = (Except.ok a1, s1) ∧ r2 = (Except.ok a2, s2) ∧ R a1 a2 ∧
      ValueStack.shape s1 = ValueStack.shape s2) ∨
  (∃ e s1 s2, r1 = (Except.error e, s1) ∧ r2 = (Except.error e, s2)) ∨
  r1.1 = Except.error Fault.InvalidPattern ∨ r2.1 = Except.error Fault.InvalidPattern

/-- Two computations that stay in lockstep when started on stacks of the same
shape. -/
def VM.Related {α : Type} (R : α → α → Prop) (m1 m2 : VM α) : Prop :=
  ∀ s1 s2 : ValueStack, ValueStack.shape s1 = ValueStack.shape s2 → Lockstep R (m1 s1) (m2 s2)

/-! ## Plain patterns: what the regex library is required to do

`boost::regex` is an external library.  What the opcodes rely on is stated for
the plain patterns: an optional leading `^`, a non-empty run of letters, digits or
blanks, an optional trailing `$`.  In Perl syntax such a pattern matches a piece of
the subject that equals the run of characters, at the start of the subject under
`^` and at its end under `$`; with `icase` the comparison is without regard to
case.  `regex_search` looks for a match anywhere in the subject.  The subject is
taken without line breaks, at which `^` and `$` would match too. -/

/-- A character that stands for itself in a pattern. -/
def plainChar (c : Char) : Bool :=
  c.isAlphanum || c == ' '

/-- A plain pattern: whether it starts with `^`, its run of characters, whether
it ends with `$`. -/
structure PlainPattern where
  atStart : Bool
  literal : List Char
  atEnd : Bool
  deriving DecidableEq

/-- Takes a leading `^` off a pattern. -/
def stripStart : List Char → Bool × List Char
  | '^' :: rest => (true, rest)
  | cs => (false, cs)

/-- Takes a trailing `$` off a pattern. -/
def stripEnd (cs : List Char) : Bool × List Char :=
  if cs.getLast? = some '$' then (true, cs.dropLast) else (false, cs)

/-- Reads a text as a plain pattern, if it is one. -/
def parsePlain (pattern : String) : Option PlainPattern :=
  let front := stripStart pattern.data
  let back := stripEnd front.2
  if !back.2.isEmpty && back.2.all plainChar then
    some { atStart := front.1, literal := back.2, atEnd := back.1 }
  else none

/-- The character as it is compared: in lower case under `icase`. -/
def foldCase (icase : Bool) (c : Char) : Char :=
  if icase then c.toLower else c

/-- A plain pattern matches somewhere in the subject: the subject is
`pre ++ mid ++ post` where `mid` equals the run of characters of the pattern
(without regard to case under `icase`), `pre` is empty if the pattern starts with
`^` and `post` is empty if it ends with `$`. -/
def MatchesSomewhere (p : PlainPattern) (icase : Bool) (subject : String) : Prop :=
  ∃ pre mid post : List Char, subject.data = pre ++ mid ++ post ∧
    mid.map (foldCase icase) = p.literal.map (foldCase icase) ∧
    (p.atStart = true → pre = []) ∧ (p.atEnd = true → post = [])

/-- A subject without line breaks (line feed, carriage return, form feed). -/
def singleLine (subject : String) : Bool :=
  subject.data.all (fun c => c != Char.ofNat 10 && c != Char.ofNat 13 && c != Char.ofNat 12)

/-- What is required of the regex library: in Perl syntax every plain pattern
compiles, and `regex_search` with the compiled pattern (the compiled pattern
applied to the subject) answers, on a subject without line breaks, whether the
pattern matches somewhere in the subject, without regard to case exactly when
`icase` is set. -/
def FaithfulOnPlain (re : RegexCompiler) : Prop :=
  ∀ (pattern : String) (flags : SyntaxFlags) (p : PlainPattern),
    flags.perl = true → parsePlain pattern = some p →
    ∃ rx, re pattern flags = some rx ∧
      ∀ subject : String, singleLine subject = true →
        (rx subject = true ↔ MatchesSomewhere p flags.icase subject)

/-- Whether the subject begins with the literal. -/
def startsWith : List Char → List Char → Bool
  | [], _ => true
  | _ :: _, [] => false
  | p :: ps, c :: cs => p == c && startsWith ps cs

/-- Whether the literal occurs somewhere in the subject. -/
def occursIn (lit : List Char) : List Char → Bool
  | [] => startsWith lit []
  | c :: cs => startsWith lit (c :: cs) || occursIn lit cs

/-- A search for a plain pattern in a subject that can be run. -/
def plainSearch (p : PlainPattern) (icase : Bool) (subject : List Char) : Bool :=
  let lit := p.literal.map (foldCase icase)
  let subj := subject.map (foldCase icase)
  match p.atStart, p.atEnd with
  | true, true => decide (subj = lit)
  | true, false => startsWith lit subj
  | false, true => startsWith lit.reverse subj.reverse
  | false, false => occursIn lit subj

/-- A small pattern compiler that can be run, used where a scenario is to be
evaluated: it compiles the plain patterns and searches for them as required
above, and refuses every other pattern.  Among those it refuses is `(`, a pattern
with an unmatched parenthesis, which `boost::regex` rejects too. -/
def plainRegex : RegexCompiler := fun pattern flags =>
  (parsePlain pattern).map (fun p subject => plainSearch p flags.icase subject.data)

/-! ## Descriptions (`name()`) -/

/-- The double-quote character, as a text. -/
def dquote : String := String.singleton (Char.ofNat 34)

/-- Modelled from the spec: `operator<<` on a `Value`, which the `name()` methods
of the literal pushes call, is declared in the missing `KernelValue.hpp`.
Section 6 fixes how a Text is rendered, by its example `pushString("ALA")`: the
text between double quotes.  It does not say how a number is rendered; that
rendering is the parameter `num`. -/
def Value.render (num : Value → String) : Value → String
  | Value.STRING str => dquote ++ str ++ dquote
  | v => num v

/-- The virtual method `name()`.  The base class returns `my_name`; `pushString`,
`pushInt` and `pushFloat` override it with `my_name << "(" << val << ")"` and
`matchRegex` with `my_name + "(" + what + ")"`.  The method is `const`: it
returns a text and leaves the object, its stack and its atom as they are. -/
def Action.name (num : Value → String) (a : Action) : String :=
  match a.kind with
  | Kind.pushString val => a.my_name ++ "(" ++ val.render num ++ ")"
  | Kind.pushInt val => a.my_name ++ "(" ++ val.render num ++ ")"
  | Kind.pushFloat val => a.my_name ++ "(" ++ val.render num ++ ")"
  | Kind.matchRegex _ what => a.my_name ++ "(" ++ what ++ ")"
  | _ => a.my_name

/-- The name of the subclass in the source, which is how the opcode kinds are
called: `equals`, `lessThan`, `logicalAnd`, ... -/
def Kind.className : Kind → String
  | Kind.pushString _ => "pushString"
  | Kind.pushInt _ => "pushInt"
  | Kind.pushFloat _ => "pushFloat"
  | Kind.drop => "drop"
  | Kind.dup => "dup"
  | Kind.equals => "equals"
  | Kind.lessThan => "lessThan"
  | Kind.lessThanEquals => "lessThanEquals"
  | Kind.greaterThan => "greaterThan"
  | Kind.greaterThanEquals => "greaterThanEquals"
  | Kind.matchRegex _ _ => "matchRegex"
  | Kind.matchStringAsRegex => "matchStringAsRegex"
  | Kind.pushAtomName => "pushAtomName"
  | Kind.pushAtomId => "pushAtomId"
  | Kind.pushAtomResname => "pushAtomResname"
  | Kind.pushAtomResid => "pushAtomResid"
  | Kind.pushAtomSegid => "pushAtomSegid"
  | Kind.logicalAnd => "logicalAnd"
  | Kind.logicalOr => "logicalOr"
  | Kind.logicalNot => "logicalNot"

/-- Whether the subclass carries a literal: a `val` or a pattern. -/
def Kind.hasPayload : Kind → Bool
  | Kind.pushString _ => true
  | Kind.pushInt _ => true
  | Kind.pushFloat _ => true
  | Kind.matchRegex _ _ => true
  | _ => false

/-! ## Stack effect of the opcodes -/

/-- The number of operands an opcode takes off the stack. -/
def Kind.operands : Kind → Nat
  | Kind.drop => 1
  | Kind.equals => 2
  | Kind.lessThan => 2
  | Kind.lessThanEquals => 2
  | Kind.greaterThan => 2
  | Kind.greaterThanEquals => 2
  | Kind.matchRegex _ _ => 1
  | Kind.matchStringAsRegex => 2
  | Kind.logicalAnd => 2
  | Kind.logicalOr => 2
  | Kind.logicalNot => 1
  | _ => 0

/-- The change of depth an opcode makes when it succeeds: +1 for the literal
pushes, the atom-property pushes and `dup`; -1 for `drop`, the five relational
opcodes, `matchStringAsRegex`, `logicalAnd` and `logicalOr`; 0 for `matchRegex` and
`logicalNot`. -/
def Kind.depthChange : Kind → Int
  | Kind.pushString _ => 1
  | Kind.pushInt _ => 1
  | Kind.pushFloat _ => 1
  | Kind.dup => 1
  | Kind.pushAtomName => 1
  | Kind.pushAtomId => 1
  | Kind.pushAtomResname => 1
  | Kind.pushAtomResid => 1
  | Kind.pushAtomSegid => 1
  | Kind.drop => -1
  | Kind.equals => -1
  | Kind.lessThan => -1
  | Kind.lessThanEquals => -1
  | Kind.greaterThan => -1
  | Kind.greaterThanEquals => -1
  | Kind.matchStringAsRegex => -1
  | Kind.logicalAnd => -1
  | Kind.logicalOr => -1
  | Kind.matchRegex _ _ => 0
  | Kind.logicalNot => 0

/-! ## Coordinates (`Coord.hpp`)

The class template `Coord<T>` is taken at exact arithmetic: `T` is the field of
rationals, and the `double` computations of `fmod`, `fabs` and the `int` cast are
done exactly.  The array `T v[MAXCOORD+1]` with `MAXCOORD = 3` is a record of
four elements; each loop `for (i=0; i<MAXCOORD; i++)` is written out for the
three elements `x`, `y`, `z`. -/

/-- The array `v` of a `Coord<T>`: `x`, `y`, `z` are `v[X]`, `v[Y]`, `v[Z]` and `w`
is `v[MAXCOORD]`, the extra element of the homogeneous coordinate. -/
structure Coord where
  x : ℚ
  y : ℚ
  z : ℚ
  w : ℚ
  deriving DecidableEq

/-- Truncation toward zero, of unbounded range: the rounding of the C cast `(int)`
and the quotient that `fmod` takes. -/
def truncToInt (q : ℚ) : Int :=
  if 0 ≤ q then ⌊q⌋ else ⌈q⌉

/-- The least value of the 32-bit `int`. -/
def INT_MIN : Int := -2147483648

/-- The greatest value of the 32-bit `int`. -/
def INT_MAX : Int := 2147483647

/-- The C cast `(int)` of a floating-point number to the 32-bit `int`: truncation
toward zero when the truncated value lies in `INT_MIN .. INT_MAX`.  Outside that
range the language leaves the conversion undefined; the value taken here is the
one the x86 conversion instruction delivers, `INT_MIN`. -/
def castToInt (q : ℚ) : Int :=
  let n := truncToInt q
  if INT_MIN ≤ n ∧ n ≤ INT_MAX then n else INT_MIN

/-- The C library function `fmod(x, y)`: the remainder `x - n*y` where `n` is the
quotient `x/y` truncated toward zero. -/
def fmod (x y : ℚ) : ℚ :=
  x - (truncToInt (x / y) : ℚ) * y

namespace Coord

/-- The method `zero()`: `v[i] = 0` for `i < MAXCOORD`, then `v[i] = 1` with
`i = MAXCOORD`.  All four elements are assigned, so the result does not depend on
what the object held. -/
def zero : Coord := { x := 0, y := 0, z := 0, w := 1 }

/-- The method `set(x, y, z)`: `v[X] = x; v[Y] = y; v[Z] = z; v[MAXCOORD] = 1;`. -/
def set (x y z : ℚ) : Coord := { x := x, y := y, z := z, w := 1 }

/-- The body of `copy(c)` past its test: `v[i] = c.v[i]` for `i < MAXCOORD`, then
`v[i] = 1`. -/
def copyFrom (c : Coord) : Coord := { x := c.x, y := c.y, z := c.z, w := 1 }

/-- The private method `copy(c)`: `if (&c == this) return;` and then the copy.
`same` tells whether `c` is the object itself. -/
def copy (this c : Coord) (same : Bool) : Coord :=
  if same then this else copyFrom c

/-- The constructor `Coord() { zero(); }`. -/
def mkDefault : Coord := zero

/-- The constructor `Coord(ax, ay, az) { set(ax, ay, az); }`. -/
def mkXYZ (ax ay az : ℚ) : Coord := set ax ay az

/-- The constructor `Coord(const Coord<T>& o) { copy(o); }`, of an object other
than `o`. -/
def mkCopy (o : Coord) : Coord := copyFrom o

/-- The constructor `Coord(const T x)`: `v[i] = x` for `i < MAXCOORD`, then
`v[i] = 1.0`.  It is also the implicit conversion of a scalar to a `Coord`. -/
def mkScalar (x : ℚ) : Coord := { x := x, y := x, z := x, w := 1 }

/-- The operator `=`: `copy(c); return(*this);`. -/
def assign (this c : Coord) (same : Bool) : Coord := this.copy c same

/-- The operator `+=`: `v[i] += rhs.v[i]` for `i < MAXCOORD`. -/
def plusEq (this rhs : Coord) : Coord :=
  { x := this.x + rhs.x, y := this.y + rhs.y, z := this.z + rhs.z, w := this.w }

/-- The operator `Coord + Coord`: `Coord<T> res(*this); res += rhs;`. -/
def plus (this rhs : Coord) : Coord := (mkCopy this).plusEq rhs

/-- The friend operator `T + Coord`: `Coord<T> res(rhs); res += lhs;`, the scalar
being converted to a `Coord` for `+=`. -/
def scalarPlus (lhs : ℚ) (rhs : Coord) : Coord := (mkCopy rhs).plusEq (mkScalar lhs)

/-- The operator `-=`: `v[i] -= rhs.v[i]` for `i < MAXCOORD`. -/
def minusEq (this rhs : Coord) : Coord :=
  { x := this.x - rhs.x, y := this.y - rhs.y, z := this.z - rhs.z, w := this.w }

/-- The operator `Coord - Coord`: `Coord<T> res(*this); res -= rhs;`. -/
def minus (this rhs : Coord) : Coord := (mkCopy this).minusEq rhs

/-- The unary operator `-`: `Coord<T> res(*this); res.v[i] = -res.v[i]` for
`i < MAXCOORD`. -/
def neg (this : Coord) : Coord :=
  let res := mkCopy this
  { x := -res.x, y := -res.y, z := -res.z, w := res.w }

/-- The friend operator `T - Coord`: `Coord<T> res; res.v[i] = lhs - rhs.v[i]` for
`i < MAXCOORD`. -/
def scalarMinus (lhs : ℚ) (rhs : Coord) : Coord :=
  let res := mkDefault
  { x := lhs - rhs.x, y := lhs - rhs.y, z := lhs - rhs.z, w := res.w }

/-- The operator `*=`: `v[i] *= rhs` for `i < MAXCOORD`. -/
def timesEq (this : Coord) (rhs : ℚ) : Coord :=
  { x := this.x * rhs, y := this.y * rhs, z := this.z * rhs, w := this.w }

/-- The operator `Coord * T`: `Coord<T> res(*this); res *= rhs;`. -/
def times (this : Coord) (rhs : ℚ) : Coord := (mkCopy this).timesEq rhs

/-- The friend operator `T * Coord`: `Coord<T> res(rhs); res *= lhs;`. -/
def scalarTimes (lhs : ℚ) (rhs : Coord) : Coord := (mkCopy rhs).timesEq lhs

/-- The operator `/=`: `v[i] /= rhs` for `i < MAXCOORD`. -/
def divEq (this : Coord) (rhs : ℚ) : Coord :=
  { x := this.x / rhs, y := this.y / rhs, z := this.z / rhs, w := this.w }

/-- The operator `Coord / T`: `Coord<T> res(*this); res /= rhs;`. -/
def div (this : Coord) (rhs : ℚ) : Coord := (mkCopy this).divEq rhs

/-- The friend operator `T / Coord`: `Coord<T> res; res.v[i] = lhs / rhs.v[i]` for
`i < MAXCOORD`. -/
def scalarDiv (lhs : ℚ) (rhs : Coord) : Coord :=
  let res := mkDefault
  { x := lhs / rhs.x, y := lhs / rhs.y, z := lhs / rhs.z, w := res.w }

/-- The method `cross(rhs)`: `Coord<T> res;` and the three products. -/
def cross (this rhs : Coord) : Coord :=
  let res := mkDefault
  { x := this.y * rhs.z - this.z * rhs.y,
    y := this.z * rhs.x - this.x * rhs.z,
    z := this.x * rhs.y - this.y * rhs.x,
    w := res.w }

/-- The operator `^=`: `Coord<T> tmp = cross(rhs); *this = tmp;`, the temporary
being another object than `*this`. -/
def crossEq (this rhs : Coord) : Coord := this.assign (this.cross rhs) false

/-- The operator `%=`: `v[i] = fmod(v[i], rhs.v[i])` for `i < MAXCOORD`. -/
def modEq (this rhs : Coord) : Coord :=
  { x := fmod this.x rhs.x, y := fmod this.y rhs.y, z := fmod this.z rhs.z, w := this.w }

/-- One turn of the loop of `reimage`, `n` being declared `int n;`:
`n = (int)(fabs(v[i]) / box.v[i] + 0.5);
v[i] = (v[i] >= 0) ? v[i] - n*(box.v[i]) : v[i] + n*(box.v[i]);`
The product `n*(box.v[i])` is taken in floating point, the `int` being converted
first, so only the cast is bounded. -/
def reimage1 (v b : ℚ) : ℚ :=
  let n : Int := castToInt (|v| / b + 1 / 2)
  if v ≥ 0 then v - (n : ℚ) * b else v + (n : ℚ) * b

/-- The method `reimage(box)`. -/
def reimage (this box : Coord) : Coord :=
  { x := reimage1 this.x box.x, y := reimage1 this.y box.y, z := reimage1 this.z box.z,
    w := this.w }

/-- One turn of the loop of `canonical`:
`v[i] = fmod(v[i] + 1.5 * box.v[i], box.v[i]) - (box.v[i] / 2.0);` -/
def canonical1 (v b : ℚ) : ℚ :=
  fmod (v + 3 / 2 * b) b - b / 2

/-- The method `canonical(box)`, documented as "Translate coordinates to the unit
cell". -/
def canonical (this box : Coord) : Coord :=
  { x := canonical1 this.x box.x, y := canonical1 this.y box.y, z := canonical1 this.z box.z,
    w := this.w }

end Coord

/-! ## System factories (`sfactories.cpp`) -/

/-- The text `availableSystemFileTypes()` returns. -/
def availableSystemFileTypes : String :=
  "crd (CHARMM), gro (GROMACS), pdb (CHARMM/NAMD), prmtop (Amber), psf (CHARMM/NAMD), xyz (Tinker)"

/-- The items of a text that are separated by commas. -/
def splitAtCommas (cur : List Char) : List Char → List (List Char)
  | [] => [cur.reverse]
  | c :: cs => if c == ',' then cur.reverse :: splitAtCommas [] cs else splitAtCommas (c :: cur) cs

/-- The file types a list such as that of `availableSystemFileTypes` advertises:
the first word of each of its comma-separated items. -/
def advertisedTypes (text : String) : List String :=
  (splitAtCommas [] text.data).map
    (fun item => String.mk ((item.dropWhile (fun c => c == ' ')).takeWhile (fun c => c != ' ')))

/-- The reader object `createSystemPtr` constructs, `new PDB(filename)` and so on,
each with the file name it is given.  The reader classes themselves are not part
of the sources at hand. -/
inductive SystemReader where
  | PDB (filename : String)
  | PSF (filename : String)
  | Amber (filename : String)
  | TinkerXYZ (filename : String)
  | Gromacs (filename : String)
  | CHARMM (filename : String)
  deriving DecidableEq

/-- The error `createSystemPtr` throws: the `runtime_error` whose message is
"Error- unknown system file type", with the file type and the file name it
quotes. -/
inductive FactoryError where
  | unknownSystemFileType (filetype filename : String)
  deriving DecidableEq

/-- The function `createSystemPtr(filename, filetype)`: a chain of comparisons
`filetype == "pdb"`, ... of `std::string`, each constructing its reader, and the
final `else` that throws. -/
def createSystemPtr (filename filetype : String) : Except FactoryError SystemReader :=
  if filetype = "pdb" then Except.ok (SystemReader.PDB filename)
  else if filetype = "psf" then Except.ok (SystemReader.PSF filename)
  else if filetype = "prmtop" then Except.ok (SystemReader.Amber filename)
  else if filetype = "xyz" then Except.ok (SystemReader.TinkerXYZ filename)
  else if filetype = "gro" then Except.ok (SystemReader.Gromacs filename)
  else if filetype = "crd" then Except.ok (SystemReader.CHARMM filename)
  else Except.error (FactoryError.unknownSystemFileType filetype filename)

/-! ## Trajectory factories (`sfactories.cpp`) -/

/-- The `create` function a binding points to, `&DCD::create` and so on. -/
inductive TrajectoryCreator where
  | DCD
  | AmberNetcdf
  | AmberTraj
  | AmberRst
  | CCPDB
  | TinkerArc
  | XTC
  | TRR
  deriving DecidableEq

/-- The struct `internal::TrajectoryNameBindingType`; `creator` is a function
pointer, `none` being the null pointer. -/
structure TrajectoryNameBindingType where
  suffix : String
  type : String
  creator : Option TrajectoryCreator
  deriving DecidableEq

/-- The array `internal::trajectory_name_bindings`, ended by the entry
`{ "", "", 0 }`.  `hasNetcdf` tells whether `HAS_NETCDF` is defined. -/
def trajectory_name_bindings (hasNetcdf : Bool) : List TrajectoryNameBindingType :=
  [{ suffix := "dcd", type := "CHARMM/NAMD DCD", creator := some TrajectoryCreator.DCD }] ++
  (if hasNetcdf then
    [{ suffix := "nc", type := "Amber Trajectory (NetCDF format)",
       creator := some TrajectoryCreator.AmberNetcdf },
     { suffix := "mdcrd", type := "Amber Trajectory (NetCDF or Amber format)",
       creator := some TrajectoryCreator.AmberNetcdf },
     { suffix := "crd", type := "Amber Trajectory (NetCDF or Amber format)",
       creator := some TrajectoryCreator.AmberNetcdf }]
  else
    [{ suffix := "mdcrd", type := "Amber Trajectory", creator := some TrajectoryCreator.AmberTraj },
     { suffix := "crd", type := "Amber Trajectory", creator := some TrajectoryCreator.AmberTraj }]) ++
  [{ suffix := "rst", type := "Amber Restart", creator := some TrajectoryCreator.AmberRst },
   { suffix := "rst7", type := "Amber Restart", creator := some TrajectoryCreator.AmberRst },
   { suffix := "impcrd", type := "Amber Restart", creator := some TrajectoryCreator.AmberRst },
   { suffix := "pdb", type := "Concatenated PDB", creator := some TrajectoryCreator.CCPDB },
   { suffix := "arc", type := "Tinker ARC", creator := some TrajectoryCreator.TinkerArc },
   { suffix := "xtc", type := "Gromacs XTC", creator := some TrajectoryCreator.XTC },
   { suffix := "trr", type := "Gromacs TRR", creator := some TrajectoryCreator.TRR },
   { suffix := "", type := "", creator := none }]

/-- The entries the loop `for (p = trajectory_name_bindings; p->creator != 0; ++p)`
visits: those before the first entry with a null creator. -/
def boundEntries : List TrajectoryNameBindingType → List TrajectoryNameBindingType
  | [] => []
  | p :: rest =>
      match p.creator with
      | none => []
      | some _ => p :: boundEntries rest

/-- The line-feed character, as a text. -/
def newline : String := String.singleton (Char.ofNat 10)

/-- The function `availableTrajectoryFileTypes()`:
`types += p->suffix + " = " + p->type + "\n"` for each entry the loop visits. -/
def availableTrajectoryFileTypes (hasNetcdf : Bool) : String :=
  (boundEntries (trajectory_name_bindings hasNetcdf)).foldl
    (fun types p => types ++ (p.suffix ++ " = " ++ p.type ++ newline)) ""

/-- The suffixes `availableTrajectoryFileTypes()` advertises, one for each line
it writes. -/
def advertisedTrajectorySuffixes (hasNetcdf : Bool) : List String :=
  (boundEntries (trajectory_name_bindings hasNetcdf)).map (fun p => p.suffix)

/-- Modelled from the spec: `AtomicGroup.hpp` is not among the sources (and the
specification leaves the molecular model to an external collaborator).  This is
what `createTrajectory` asks of the model `g`: `g.allHaveProperty(Atom::indexbit)`
and `g.size()`. -/
structure AtomicGroup where
  allHaveIndex : Bool
  size : Nat
  deriving DecidableEq

/-- The trajectory object `createTrajectory` constructs, `new DCD(filename)`,
`new AmberTraj(filename, g.size())` and so on.  The trajectory classes themselves
are not part of the sources at hand. -/
inductive TrajectoryReader where
  | DCD (filename : String)
  | AmberNetcdf (filename : String) (natoms : Nat)
  | AmberTraj (filename : String) (natoms : Nat)
  | AmberRst (filename : String) (natoms : Nat)
  | CCPDB (filename : String)
  | TinkerArc (filename : String)
  | XTC (filename : String)
  | TRR (filename : String)
  deriving DecidableEq

/-- The errors `createTrajectory` throws: the `LOOSError` about a model without
atom index information, the `runtime_error` about a build without netcdf support,
and the `runtime_error` "Error- unknown trajectory file type", with the file type
and the file name it quotes. -/
inductive TrajectoryError where
  | noIndexInformation
  | builtWithoutNetcdf
  | unknownTrajectoryFileType (filetype filename : String)
  deriving DecidableEq

/-- The function `createTrajectory(filename, filetype, g)`: the test of the
model, then the chain of comparisons of `filetype`.  `hasNetcdf` tells whether
`HAS_NETCDF` is defined; `isFileNetCDF` is the function of that name, which is not
part of the sources at hand. -/
def createTrajectory (hasNetcdf : Bool) (isFileNetCDF : String → Bool)
    (filename filetype : String) (g : AtomicGroup) : Except TrajectoryError TrajectoryReader :=
  if !g.allHaveIndex then Except.error TrajectoryError.noIndexInformation
  else if filetype = "dcd" then Except.ok (TrajectoryReader.DCD filename)
  else if filetype = "nc" then
    if hasNetcdf then Except.ok (TrajectoryReader.AmberNetcdf filename g.size)
    else Except.error TrajectoryError.builtWithoutNetcdf
  else if filetype = "mdcrd" ∨ filetype = "crd" then
    if hasNetcdf && isFileNetCDF filename then
      Except.ok (TrajectoryReader.AmberNetcdf filename g.size)
    else Except.ok (TrajectoryReader.AmberTraj filename g.size)
  else if filetype = "rst" ∨ filetype = "rst7" ∨ filetype = "inpcrd" then
    Except.ok (TrajectoryReader.AmberRst filename g.size)
  else if filetype = "pdb" then Except.ok (TrajectoryReader.CCPDB filename)
  else if filetype = "arc" then Except.ok (TrajectoryReader.TinkerArc filename)
  else if filetype = "xtc" then Except.ok (TrajectoryReader.XTC filename)
  else if filetype = "trr" then Except.ok (TrajectoryReader.TRR filename)
  else Except.error (TrajectoryError.unknownTrajectoryFileType filetype filename)

/-! ## Scaling of eigenvalue power (`Tools/coverlap.cpp`) -/

/-- The first loop of `scalePower`, `for (j<B.rows()) { sumB += B[j]; sumA += A[j]; }`,
on the entries of `A` and `B` from the index the loop has reached; the pair is
`(sumB, sumA)`.  An index outside `A` is not given a meaning: the loop has no
result there. -/
def scalePowerSums : List ℚ → List ℚ → ℚ × ℚ → Option (ℚ × ℚ)
  | _, [], acc => some acc
  | [], _ :: _, _ => none
  | a :: as, b :: bs, acc => scalePowerSums as bs (acc.1 + b, acc.2 + a)

/-- The function `scalePower(A, B)` on two column vectors, given by their
entries: the sums, `scale = sumA / sumB`, and `E[j] = B[j] * scale` for
`j < B.rows()`.  (The message written to `cerr` is left out.) -/
def scalePower (A B : List ℚ) : Option (List ℚ) :=
  match scalePowerSums A B (0, 0) with
  | none => none
  | some (sumB, sumA) =>
      let scale := sumA / sumB
      some (B.map (fun b => b * scale))

/-! ## Basic facts about the kernel monad and the stack -/

theorem VM.bind_apply {α β : Type} (m : VM α) (f : α → VM β) (s : ValueStack) :
    (m >>= f) s =
      match m s with
      | (Except.ok a, s1) => f a s1
      | (Except.error e, s1) => (Except.error e, s1) := rfl

theorem VM.pure_apply {α : Type} (a : α) (s : ValueStack) :
    (pure a : VM α) s = (Except.ok a, s) := rfl

theorem VM.fail_apply {α : Type} (e : Fault) (s : ValueStack) :
    (VM.fail e : VM α) s = (Except.error e, s) := rfl

theorem VM.ofExcept_ok {α : Type} (a : α) (s : ValueStack) :
    (VM.ofExcept (Except.ok a) : VM α) s = (Except.ok a, s) := rfl

theorem VM.ofExcept_error {α : Type} (e : Fault) (s : ValueStack) :
    (VM.ofExcept (Except.error e) : VM α) s = (Except.error e, s) := rfl

theorem ValueStack.push_apply (v : Value) (s : ValueStack) :
    ValueStack.push v s = (Except.ok (), s ++ [v]) := rfl

theorem ValueStack.pop_nil : ValueStack.pop [] = (Except.error Fault.StackUnderflow, []) := rfl

theorem ValueStack.pop_concat (s : ValueStack) (v : Value) :
    ValueStack.pop (s ++ [v]) = (Except.ok v, s) := by
  simp [ValueStack.pop]

theorem ValueStack.dup_nil : ValueStack.dup [] = (Except.error Fault.StackUnderflow, []) := rfl

theorem ValueStack.dup_concat (s : ValueStack) (v : Value) :
    ValueStack.dup (s ++ [v]) = (Except.ok (), s ++ [v, v]) := by
  simp [ValueStack.dup]

theorem ValueStack.drop_nil : ValueStack.drop [] = (Except.error Fault.StackUnderflow, []) := rfl

theorem ValueStack.drop_concat (s : ValueStack) (v : Value) :
    ValueStack.drop (s ++ [v]) = (Except.ok (), s) := by
  simp [ValueStack.drop]

theorem ValueStack.append_pair (s : ValueStack) (l r : Value) :
    s ++ [l, r] = (s ++ [l]) ++ [r] := by
  simp

/-- On a stack `s ++ [l, r]`, `binComp` consumes both values and returns
`compare l r`: the top of the stack is the right-hand operand. -/
theorem Action.binComp_pair (s : ValueStack) (l r : Value) :
    Action.binComp (s ++ [l, r]) =
      match compare l r with
      | Except.ok c => (Except.ok c, s)
      | Except.error e => (Except.error e, s) := by
  rw [ValueStack.append_pair]
  simp only [Action.binComp, VM.bind_apply, ValueStack.pop_concat]
  cases compare l r <;> rfl

theorem Action.binComp_nil : Action.binComp [] = (Except.error Fault.StackUnderflow, []) := rfl

theorem Action.binComp_single (v : Value) :
    Action.binComp [v] = (Except.error Fault.StackUnderflow, []) := rfl

/-! ## Relational opcodes -/

theorem equals_execute_of_binComp (re : RegexCompiler) (pa : pAtom) (s0 s : ValueStack) (c : Int)
    (hb : Action.binComp s0 = (Except.ok c, s)) :
    (equals.setAtom pa).execute re s0
      = (Except.ok (), s ++ [if c = 0 then Value.INT 1 else Value.INT 0]) := by
  simp only [Action.execute, equals, Action.setAtom, Action.mk0, VM.bind_apply, hb,
    ValueStack.push_apply, Value.ofBool]
  by_cases hc : c = 0 <;> simp [hc]

theorem lessThan_execute_of_binComp (re : RegexCompiler) (pa : pAtom) (s0 s : ValueStack) (c : Int)
    (hb : Action.binComp s0 = (Except.ok c, s)) :
    (lessThan.setAtom pa).execute re s0
      = (Except.ok (), s ++ [if c < 0 then Value.INT 1 else Value.INT 0]) := by
  simp only [Action.execute, lessThan, Action.setAtom, Action.mk0, VM.bind_apply, hb,
    ValueStack.push_apply, Value.ofBool]
  by_cases hc : c < 0 <;> simp [hc]

theorem lessThanEquals_execute_of_binComp (re : RegexCompiler) (pa : pAtom) (s0 s : ValueStack)
    (c : Int) (hb : Action.binComp s0 = (Except.ok c, s)) :
    (lessThanEquals.setAtom pa).execute re s0
      = (Except.ok (), s ++ [if c ≤ 0 then Value.INT 1 else Value.INT 0]) := by
  simp only [Action.execute, lessThanEquals, Action.setAtom, Action.mk0, VM.bind_apply, hb,
    ValueStack.push_apply, Value.ofBool]
  by_cases hc : c ≤ 0 <;> simp [hc]

theorem greaterThan_execute_of_binComp (re : RegexCompiler) (pa : pAtom) (s0 s : ValueStack)
    (c : Int) (hb : Action.binComp s0 = (Except.ok c, s)) :
    (greaterThan.setAtom pa).execute re s0
      = (Except.ok (), s ++ [if c > 0 then Value.INT 1 else Value.INT 0]) := by
  simp only [Action.execute, greaterThan, Action.setAtom, Action.mk0, VM.bind_apply, hb,
    ValueStack.push_apply, Value.ofBool]
  by_cases hc : c > 0 <;> simp [hc]

theorem greaterThanEquals_execute_of_binComp (re : RegexCompiler) (pa : pAtom) (s0 s : ValueStack)
    (c : Int) (hb : Action.binComp s0 = (Except.ok c, s)) :
    (greaterThanEquals.setAtom pa).execute re s0
      = (Except.ok (), s ++ [if c ≥ 0 then Value.INT 1 else Value.INT 0]) := by
  simp only [Action.execute, greaterThanEquals, Action.setAtom, Action.mk0, VM.bind_apply, hb,
    ValueStack.push_apply, Value.ofBool]
  by_cases hc : c ≥ 0 <;> simp [hc]

/-- A failing `binComp` makes every relational opcode fail with the same fault
and leaves the stack as `binComp` left it: nothing is pushed. -/
theorem relational_execute_of_binComp_error (re : RegexCompiler) (pa : pAtom)
    (s0 s : ValueStack) (e : Fault) (hb : Action.binComp s0 = (Except.error e, s)) :
    (equals.setAtom pa).execute re s0 = (Except.error e, s) ∧
    (lessThan.setAtom pa).execute re s0 = (Except.error e, s) ∧
    (lessThanEquals.setAtom pa).execute re s0 = (Except.error e, s) ∧
    (greaterThan.setAtom pa).execute re s0 = (Except.error e, s) ∧
    (greaterThanEquals.setAtom pa).execute re s0 = (Except.error e, s) := by
  refine ⟨?_, ?_, ?_, ?_, ?_⟩ <;>
    simp only [Action.execute, equals, lessThan, lessThanEquals, greaterThan, greaterThanEquals,
      Action.setAtom, Action.mk0, VM.bind_apply, hb]

theorem Action.binComp_of_compare (s : ValueStack) (l r : Value) (c : Int)
    (h : compare l r = Except.ok c) : Action.binComp (s ++ [l, r]) = (Except.ok c, s) := by
  rw [Action.binComp_pair, h]

/-- The comparison of two values of the same numeric kind is defined. -/
theorem compare_defined_of_sameNumericKind (a b : Value) (h : a.sameNumericKind b = true) :
    ∃ c : Int, compare a b = Except.ok c := by
  cases a <;> cases b <;> simp [Value.sameNumericKind] at h
  · exact ⟨_, rfl⟩
  · exact ⟨_, rfl⟩

/-- C1: on a stack `s ++ [l, r]` (r on top) on which `compare l r` is defined with
result `c`, each relational opcode leaves exactly `s ++ [Integer 1]` when `c`
satisfies its relation (`== 0`, `< 0`, `<= 0`, `> 0`, `>= 0`) and
`s ++ [Integer 0]` otherwise; the top of the stack is the right-hand operand of
`compare`, the value below it the left-hand one.  This holds whatever atom is or
is not bound to the opcode. -/
theorem relational_opcodes_compare_left_right (re : RegexCompiler) (pa : pAtom)
    (s : ValueStack) (l r : Value) (c : Int) (h : compare l r = Except.ok c) :
    (equals.setAtom pa).execute re (s ++ [l, r])
        = (Except.ok (), s ++ [if c = 0 then Value.INT 1 else Value.INT 0]) ∧
    (lessThan.setAtom pa).execute re (s ++ [l, r])
        = (Except.ok (), s ++ [if c < 0 then Value.INT 1 else Value.INT 0]) ∧
    (lessThanEquals.setAtom pa).execute re (s ++ [l, r])
        = (Except.ok (), s ++ [if c ≤ 0 then Value.INT 1 else Value.INT 0]) ∧
    (greaterThan.setAtom pa).execute re (s ++ [l, r])
        = (Except.ok (), s ++ [if c > 0 then Value.INT 1 else Value.INT 0]) ∧
    (greaterThanEquals.setAtom pa).execute re (s ++ [l, r])
        = (Except.ok (), s ++ [if c ≥ 0 then Value.INT 1 else Value.INT 0]) :=
  have hb := Action.binComp_of_compare s l r c h
  ⟨equals_execute_of_binComp re pa _ s c hb, lessThan_execute_of_binComp re pa _ s c hb,
    lessThanEquals_execute_of_binComp re pa _ s c hb, greaterThan_execute_of_binComp re pa _ s c hb,
    greaterThanEquals_execute_of_binComp re pa _ s c hb⟩

/-- Witness of C1: Integer 1 below Integer 2 compares as -1, so `lessThan` pushes
Integer 1 and `equals` pushes Integer 0. -/
theorem relational_opcodes_compare_left_right_witness :
    compare (Value.INT 1) (Value.INT 2) = Except.ok (-1) ∧
    (equals.setAtom none).execute (fun _ _ => none) ([Value.STRING "x"] ++ [Value.INT 1, Value.INT 2])
        = (Except.ok (), [Value.STRING "x"] ++ [if (-1 : Int) = 0 then Value.INT 1 else Value.INT 0]) ∧
    (lessThan.setAtom none).execute (fun _ _ => none) ([Value.STRING "x"] ++ [Value.INT 1, Value.INT 2])
        = (Except.ok (), [Value.STRING "x"] ++ [if (-1 : Int) < 0 then Value.INT 1 else Value.INT 0]) :=
  have h := relational_opcodes_compare_left_right (fun _ _ => none) none [Value.STRING "x"]
    (Value.INT 1) (Value.INT 2) (-1) rfl
  ⟨rfl, h.1, h.2.1⟩

/-- C2: trichotomy.  For two values `a`, `b` of the same numeric kind and every
stack `s`, the opcodes `lessThan`, `equals` and `greaterThan` executed on
`s ++ [a, b]` all succeed, each leaving `s` with one Integer pushed, and exactly
one of the three pushes Integer 1 while the other two push Integer 0. -/
theorem relational_trichotomy (re : RegexCompiler) (pa : pAtom) (s : ValueStack) (a b : Value)
    (h : a.sameNumericKind b = true) :
    ∃ vl ve vg : Int,
      (lessThan.setAtom pa).execute re (s ++ [a, b]) = (Except.ok (), s ++ [Value.INT vl]) ∧
      (equals.setAtom pa).execute re (s ++ [a, b]) = (Except.ok (), s ++ [Value.INT ve]) ∧
      (greaterThan.setAtom pa).execute re (s ++ [a, b]) = (Except.ok (), s ++ [Value.INT vg]) ∧
      ((vl = 1 ∧ ve = 0 ∧ vg = 0) ∨ (vl = 0 ∧ ve = 1 ∧ vg = 0) ∨ (vl = 0 ∧ ve = 0 ∧ vg = 1)) := by
  obtain ⟨c, hc⟩ := compare_defined_of_sameNumericKind a b h
  have hb := Action.binComp_of_compare s a b c hc
  refine ⟨if c < 0 then 1 else 0, if c = 0 then 1 else 0, if c > 0 then 1 else 0, ?_, ?_, ?_, ?_⟩
  · rw [lessThan_execute_of_binComp re pa _ s c hb]; split <;> rfl
  · rw [equals_execute_of_binComp re pa _ s c hb]; split <;> rfl
  · rw [greaterThan_execute_of_binComp re pa _ s c hb]; split <;> rfl
  · rcases lt_trichotomy c 0 with hlt | heq | hgt
    · left
      simp [hlt, hlt.ne, not_lt.mpr hlt.le]
    · right; left
      simp [heq]
    · right; right
      simp [hgt, hgt.ne.symm, not_lt.mpr hgt.le]

/-- Witness of C2: Integer 2 below Integer 5. -/
theorem relational_trichotomy_witness :
    (Value.INT 2).sameNumericKind (Value.INT 5) = true ∧
    ∃ vl ve vg : Int,
      (lessThan.setAtom none).execute (fun _ _ => none) ([] ++ [Value.INT 2, Value.INT 5])
        = (Except.ok (), [] ++ [Value.INT vl]) ∧
      (equals.setAtom none).execute (fun _ _ => none) ([] ++ [Value.INT 2, Value.INT 5])
        = (Except.ok (), [] ++ [Value.INT ve]) ∧
      (greaterThan.setAtom none).execute (fun _ _ => none) ([] ++ [Value.INT 2, Value.INT 5])
        = (Except.ok (), [] ++ [Value.INT vg]) ∧
      ((vl = 1 ∧ ve = 0 ∧ vg = 0) ∨ (vl = 0 ∧ ve = 1 ∧ vg = 0) ∨ (vl = 0 ∧ ve = 0 ∧ vg = 1)) :=
  ⟨rfl, relational_trichotomy (fun _ _ => none) none [] (Value.INT 2) (Value.INT 5) rfl⟩

/-! ## Logical combinators -/

theorem logicalAnd_execute_pair (re : RegexCompiler) (pa : pAtom) (s : ValueStack) (x y : Value) :
    (logicalAnd.setAtom pa).execute re (s ++ [x, y]) =
      match x, y with
      | Value.INT i1, Value.INT i2 => (Except.ok (), s ++ [Value.ofBool (i1 != 0 && i2 != 0)])
      | _, _ => (Except.error Fault.TypeMismatch, s) := by
  rw [ValueStack.append_pair]
  simp only [Action.execute, logicalAnd, Action.setAtom, Action.mk0, VM.bind_apply,
    ValueStack.pop_concat]
  cases x <;> cases y <;> rfl

theorem logicalOr_execute_pair (re : RegexCompiler) (pa : pAtom) (s : ValueStack) (x y : Value) :
    (logicalOr.setAtom pa).execute re (s ++ [x, y]) =
      match y, x with
      | Value.INT i1, Value.INT i2 => (Except.ok (), s ++ [Value.ofBool (i1 != 0 || i2 != 0)])
      | _, _ => (Except.error Fault.TypeMismatch, s) := by
  rw [ValueStack.append_pair]
  simp only [Action.execute, logicalOr, Action.setAtom, Action.mk0, VM.bind_apply,
    ValueStack.pop_concat]
  cases x <;> cases y <;> rfl

theorem logicalNot_execute_top (re : RegexCompiler) (pa : pAtom) (s : ValueStack) (x : Value) :
    (logicalNot.setAtom pa).execute re (s ++ [x]) =
      match x with
      | Value.INT i1 => (Except.ok (), s ++ [Value.ofBool (i1 == 0)])
      | _ => (Except.error Fault.TypeMismatch, s) := by
  simp only [Action.execute, logicalNot, Action.setAtom, Action.mk0, VM.bind_apply,
    ValueStack.pop_concat]
  cases x <;> rfl

/-- C3: for all integers `a`, `b` and every stack `s`, `logicalAnd` on
`s ++ [Integer a, Integer b]` leaves `s ++ [Integer 1]` if `a != 0` and `b != 0`,
else `s ++ [Integer 0]`; `logicalOr` leaves `s ++ [Integer 1]` if `a != 0` or
`b != 0`, else `s ++ [Integer 0]`; `logicalNot` on `s ++ [Integer a]` leaves
`s ++ [Integer 1]` if `a = 0`, else `s ++ [Integer 0]`.  The last four conjuncts
are the truth table of `logicalAnd` over 0 and 1, that of boolean AND. -/
theorem logical_combinators_semantics (re : RegexCompiler) (pa : pAtom) (s : ValueStack)
    (a b : Int) :
    (logicalAnd.setAtom pa).execute re (s ++ [Value.INT a, Value.INT b])
        = (Except.ok (), s ++ [if a ≠ 0 ∧ b ≠ 0 then Value.INT 1 else Value.INT 0]) ∧
    (logicalOr.setAtom pa).execute re (s ++ [Value.INT a, Value.INT b])
        = (Except.ok (), s ++ [if a ≠ 0 ∨ b ≠ 0 then Value.INT 1 else Value.INT 0]) ∧
    (logicalNot.setAtom pa).execute re (s ++ [Value.INT a])
        = (Except.ok (), s ++ [if a = 0 then Value.INT 1 else Value.INT 0]) ∧
    (logicalAnd.setAtom pa).execute re (s ++ [Value.INT 0, Value.INT 0])
        = (Except.ok (), s ++ [Value.INT 0]) ∧
    (logicalAnd.setAtom pa).execute re (s ++ [Value.INT 0, Value.INT 1])
        = (Except.ok (), s ++ [Value.INT 0]) ∧
    (logicalAnd.setAtom pa).execute re (s ++ [Value.INT 1, Value.INT 0])
        = (Except.ok (), s ++ [Value.INT 0]) ∧
    (logicalAnd.setAtom pa).execute re (s ++ [Value.INT 1, Value.INT 1])
        = (Except.ok (), s ++ [Value.INT 1]) := by
  refine ⟨?_, ?_, ?_, ?_, ?_, ?_, ?_⟩
  · rw [logicalAnd_execute_pair]
    by_cases ha : a = 0 <;> by_cases hb : b = 0 <;> simp [Value.ofBool, ha, hb]
  · rw [logicalOr_execute_pair]
    by_cases ha : a = 0 <;> by_cases hb : b = 0 <;> simp [Value.ofBool, ha, hb]
  · rw [logicalNot_execute_top]
    by_cases ha : a = 0 <;> simp [Value.ofBool, ha]
  · rw [logicalAnd_execute_pair]; rfl
  · rw [logicalAnd_execute_pair]; rfl
  · rw [logicalAnd_execute_pair]; rfl
  · rw [logicalAnd_execute_pair]; rfl

/-- C4: on a stack that holds enough operands (`s ++ [x, y]` for `logicalAnd` and
`logicalOr`, `s ++ [x]` for `logicalNot`) a logical combinator fails with
`TypeMismatch` if and only if at least one operand it pops is not
Integer-shaped; when every popped operand is an Integer (`Integer i`,
`Integer j`) it does not fail: it leaves `s` with one value pushed. -/
theorem logical_combinators_typeMismatch_iff (re : RegexCompiler) (pa : pAtom) (s : ValueStack)
    (x y : Value) (i j : Int) :
    (((logicalAnd.setAtom pa).execute re (s ++ [x, y])).1 = Except.error Fault.TypeMismatch
        ↔ (x.type ≠ ValueType.INT ∨ y.type ≠ ValueType.INT)) ∧
    (((logicalOr.setAtom pa).execute re (s ++ [x, y])).1 = Except.error Fault.TypeMismatch
        ↔ (x.type ≠ ValueType.INT ∨ y.type ≠ ValueType.INT)) ∧
    (((logicalNot.setAtom pa).execute re (s ++ [x])).1 = Except.error Fault.TypeMismatch
        ↔ x.type ≠ ValueType.INT) ∧
    (∃ v, (logicalAnd.setAtom pa).execute re (s ++ [Value.INT i, Value.INT j])
        = (Except.ok (), s ++ [v])) ∧
    (∃ v, (logicalOr.setAtom pa).execute re (s ++ [Value.INT i, Value.INT j])
        = (Except.ok (), s ++ [v])) ∧
    (∃ v, (logicalNot.setAtom pa).execute re (s ++ [Value.INT i]) = (Except.ok (), s ++ [v])) := by
  refine ⟨?_, ?_, ?_, ?_, ?_, ?_⟩
  · rw [logicalAnd_execute_pair]
    cases x <;> cases y <;> simp [Value.type]
  · rw [logicalOr_execute_pair]
    cases x <;> cases y <;> simp [Value.type]
  · rw [logicalNot_execute_top]
    cases x <;> simp [Value.type]
  · rw [logicalAnd_execute_pair]; exact ⟨_, rfl⟩
  · rw [logicalOr_execute_pair]; exact ⟨_, rfl⟩
  · rw [logicalNot_execute_top]; exact ⟨_, rfl⟩

/-! ## Atom-property opcodes -/

theorem pushAtom_execute_unbound (re : RegexCompiler) (s : ValueStack) :
    (pushAtomName.setAtom none).execute re s = (Except.error Fault.UnboundAtom, s) ∧
    (pushAtomId.setAtom none).execute re s = (Except.error Fault.UnboundAtom, s) ∧
    (pushAtomResname.setAtom none).execute re s = (Except.error Fault.UnboundAtom, s) ∧
    (pushAtomResid.setAtom none).execute re s = (Except.error Fault.UnboundAtom, s) ∧
    (pushAtomSegid.setAtom none).execute re s = (Except.error Fault.UnboundAtom, s) :=
  ⟨rfl, rfl, rfl, rfl, rfl⟩

theorem pushAtom_execute_bound (re : RegexCompiler) (at0 : Atom) (s : ValueStack) :
    (pushAtomName.setAtom (some at0)).execute re s
        = (Except.ok (), s ++ [Value.STRING at0.name]) ∧
    (pushAtomId.setAtom (some at0)).execute re s
        = (Except.ok (), s ++ [Value.INT at0.id]) ∧
    (pushAtomResname.setAtom (some at0)).execute re s
        = (Except.ok (), s ++ [Value.STRING at0.resname]) ∧
    (pushAtomResid.setAtom (some at0)).execute re s
        = (Except.ok (), s ++ [Value.INT at0.resid]) ∧
    (pushAtomSegid.setAtom (some at0)).execute re s
        = (Except.ok (), s ++ [Value.STRING at0.segid]) :=
  ⟨rfl, rfl, rfl, rfl, rfl⟩

/-- C5: each atom-property opcode fails with `UnboundAtom` if and only if no atom
is bound when it executes.  A freshly constructed opcode has no atom bound, and
the program `[pushAtomSegid]` executed on the empty stack with no atom bound
faults with `UnboundAtom`. -/
theorem pushAtom_unboundAtom_iff (re : RegexCompiler) (pa : pAtom) (s : ValueStack) :
    (((pushAtomName.setAtom pa).execute re s).1 = Except.error Fault.UnboundAtom ↔ pa = none) ∧
    (((pushAtomId.setAtom pa).execute re s).1 = Except.error Fault.UnboundAtom ↔ pa = none) ∧
    (((pushAtomResname.setAtom pa).execute re s).1 = Except.error Fault.UnboundAtom ↔ pa = none) ∧
    (((pushAtomResid.setAtom pa).execute re s).1 = Except.error Fault.UnboundAtom ↔ pa = none) ∧
    (((pushAtomSegid.setAtom pa).execute re s).1 = Except.error Fault.UnboundAtom ↔ pa = none) ∧
    pushAtomName.atom = none ∧ pushAtomId.atom = none ∧ pushAtomResname.atom = none ∧
    pushAtomResid.atom = none ∧ pushAtomSegid.atom = none ∧
    (executeAll re [pushAtomSegid] []).1 = Except.error Fault.UnboundAtom := by
  cases pa with
  | none =>
    have h := pushAtom_execute_unbound re s
    simp [h.1, h.2.1, h.2.2.1, h.2.2.2.1, h.2.2.2.2]
    exact ⟨rfl, rfl, rfl, rfl, rfl, rfl⟩
  | some at0 =>
    have h := pushAtom_execute_bound re at0 s
    simp [h.1, h.2.1, h.2.2.1, h.2.2.2.1, h.2.2.2.2]
    exact ⟨rfl, rfl, rfl, rfl, rfl, rfl⟩

/-- C6: with an atom bound, each atom-property opcode turns every stack `s` into
`s ++ [v]`, where `v` is the property of the bound atom in its natural shape:
Text for the name, the residue name and the segment identifier, Integer for the
identifier and the residue identifier. -/
theorem pushAtom_pushes_property (re : RegexCompiler) (at0 : Atom) (s : ValueStack) :
    (pushAtomName.setAtom (some at0)).execute re s
        = (Except.ok (), s ++ [Value.STRING at0.name]) ∧
    (pushAtomResname.setAtom (some at0)).execute re s
        = (Except.ok (), s ++ [Value.STRING at0.resname]) ∧
    (pushAtomSegid.setAtom (some at0)).execute re s
        = (Except.ok (), s ++ [Value.STRING at0.segid]) ∧
    (pushAtomId.setAtom (some at0)).execute re s
        = (Except.ok (), s ++ [Value.INT at0.id]) ∧
    (pushAtomResid.setAtom (some at0)).execute re s
        = (Except.ok (), s ++ [Value.INT at0.resid]) :=
  ⟨rfl, rfl, rfl, rfl, rfl⟩

/-! ## Literal pushes and stack manipulation -/

/-- C7: a literal-push opcode never fails.  For every payload fixed at
construction (a text `str`, an integer `n`, a float `f`), every stack `s` and
every atom binding `pa` (bound or not), executing the opcode yields exactly
`s ++ [p]`, and executing the same opcode again on the result yields
`s ++ [p, p]`: execution does not change the payload. -/
theorem literal_push_never_fails (re : RegexCompiler) (pa : pAtom) (s : ValueStack)
    (str : String) (n : Int) (f : ℚ) :
    ((pushString str).setAtom pa).execute re s = (Except.ok (), s ++ [Value.STRING str]) ∧
    ((pushString str).setAtom pa).execute re (s ++ [Value.STRING str])
        = (Except.ok (), s ++ [Value.STRING str, Value.STRING str]) ∧
    ((pushInt n).setAtom pa).execute re s = (Except.ok (), s ++ [Value.INT n]) ∧
    ((pushInt n).setAtom pa).execute re (s ++ [Value.INT n])
        = (Except.ok (), s ++ [Value.INT n, Value.INT n]) ∧
    ((pushFloat f).setAtom pa).execute re s = (Except.ok (), s ++ [Value.FLOAT f]) ∧
    ((pushFloat f).setAtom pa).execute re (s ++ [Value.FLOAT f])
        = (Except.ok (), s ++ [Value.FLOAT f, Value.FLOAT f]) := by
  refine ⟨rfl, ?_, rfl, ?_, rfl, ?_⟩ <;>
    simp [Action.execute, pushString, pushInt, pushFloat, Action.setAtom, Action.mk0,
      ValueStack.push_apply]

theorem dup_execute (re : RegexCompiler) (pa : pAtom) (s : ValueStack) :
    (dup.setAtom pa).execute re s = ValueStack.dup s := rfl

theorem drop_execute (re : RegexCompiler) (pa : pAtom) (s : ValueStack) :
    (drop.setAtom pa).execute re s = ValueStack.drop s := rfl

/-- C8: for every non-empty stack `s`, executing `dup` and then `drop` succeeds
and leaves the stack equal to `s`. -/
theorem dup_then_drop_restores (re : RegexCompiler) (pa pb : pAtom) (s : ValueStack)
    (h : s ≠ []) :
    executeAll re [dup.setAtom pa, drop.setAtom pb] s = (Except.ok (), s) := by
  obtain ⟨s0, v, rfl⟩ : ∃ s0 v, s = s0 ++ [v] :=
    ⟨s.dropLast, s.getLast h, (List.dropLast_append_getLast h).symm⟩
  have hd : s0 ++ [v, v] = (s0 ++ [v]) ++ [v] := by simp
  simp only [executeAll, VM.bind_apply, dup_execute, drop_execute, ValueStack.dup_concat, hd,
    ValueStack.drop_concat, VM.pure_apply]

/-- Witness of C8: the stack holding Integer 7 below Text "CA". -/
theorem dup_then_drop_restores_witness :
    [Value.INT 7, Value.STRING "CA"] ≠ [] ∧
    executeAll (fun _ _ => none) [dup.setAtom none, drop.setAtom none]
        [Value.INT 7, Value.STRING "CA"]
      = (Except.ok (), [Value.INT 7, Value.STRING "CA"]) :=
  ⟨by simp, dup_then_drop_restores (fun _ _ => none) none none
    [Value.INT 7, Value.STRING "CA"] (by simp)⟩

/-! ## Stack underflow -/

/-- C9: every operand-consuming opcode executed on the empty stack fails with
`StackUnderflow` and with no other fault, the stack staying empty.  The
`matchRegex` opcode is taken with an arbitrary compiled pattern. -/
theorem operand_consumers_underflow_on_empty (re : RegexCompiler) (pa : pAtom)
    (regexp : Regex) (what : String) :
    (drop.setAtom pa).execute re [] = (Except.error Fault.StackUnderflow, []) ∧
    (dup.setAtom pa).execute re [] = (Except.error Fault.StackUnderflow, []) ∧
    (equals.setAtom pa).execute re [] = (Except.error Fault.StackUnderflow, []) ∧
    (lessThan.setAtom pa).execute re [] = (Except.error Fault.StackUnderflow, []) ∧
    (lessThanEquals.setAtom pa).execute re [] = (Except.error Fault.StackUnderflow, []) ∧
    (greaterThan.setAtom pa).execute re [] = (Except.error Fault.StackUnderflow, []) ∧
    (greaterThanEquals.setAtom pa).execute re [] = (Except.error Fault.StackUnderflow, []) ∧
    ((Action.mk0 "matchRegex" (Kind.matchRegex regexp what)).setAtom pa).execute re []
        = (Except.error Fault.StackUnderflow, []) ∧
    (matchStringAsRegex.setAtom pa).execute re [] = (Except.error Fault.StackUnderflow, []) ∧
    (logicalAnd.setAtom pa).execute re [] = (Except.error Fault.StackUnderflow, []) ∧
    (logicalOr.setAtom pa).execute re [] = (Except.error Fault.StackUnderflow, []) ∧
    (logicalNot.setAtom pa).execute re [] = (Except.error Fault.StackUnderflow, []) :=
  ⟨rfl, rfl, rfl, rfl, rfl, rfl, rfl, rfl, rfl, rfl, rfl, rfl⟩

/-- C10: each relational opcode executed on a stack that holds exactly one value
`v`, of any shape, fails with `StackUnderflow`: not with `TypeMismatch`, and no
result is pushed (the one value has been popped, the stack is empty). -/
theorem relational_underflow_on_single (re : RegexCompiler) (pa : pAtom) (v : Value) :
    (equals.setAtom pa).execute re [v] = (Except.error Fault.StackUnderflow, []) ∧
    (lessThan.setAtom pa).execute re [v] = (Except.error Fault.StackUnderflow, []) ∧
    (lessThanEquals.setAtom pa).execute re [v] = (Except.error Fault.StackUnderflow, []) ∧
    (greaterThan.setAtom pa).execute re [v] = (Except.error Fault.StackUnderflow, []) ∧
    (greaterThanEquals.setAtom pa).execute re [v] = (Except.error Fault.StackUnderflow, []) :=
  relational_execute_of_binComp_error re pa [v] [] Fault.StackUnderflow (Action.binComp_single v)

/-! ## Texts and their bytes -/

set_option maxRecDepth 100000 in
theorem byte_cont : ∀ b : Fin 256, (b.val &&& 63 ||| 128) = b.val % 64 + 128 := by decide

set_option maxRecDepth 100000 in
theorem byte_lead2 : ∀ b : Fin 256, (b.val &&& 31 ||| 192) = b.val % 32 + 192 := by decide

set_option maxRecDepth 100000 in
theorem byte_lead3 : ∀ b : Fin 256, (b.val &&& 15 ||| 224) = b.val % 16 + 224 := by decide

set_option maxRecDepth 100000 in
theorem byte_lead4 : ∀ b : Fin 256, (b.val &&& 7 ||| 240) = b.val % 8 + 240 := by decide


theorem u8_toNat_and (a b : UInt8) : (a &&& b).toNat = a.toNat &&& b.toNat :=
  BitVec.toNat_and a.toBitVec b.toBitVec

theorem u8_toNat_or (a b : UInt8) : (a ||| b).toNat = a.toNat ||| b.toNat :=
  BitVec.toNat_or a.toBitVec b.toBitVec

theorem u32_toUInt8_toNat (v : UInt32) : v.toUInt8.toNat = v.toNat % 256 :=
  BitVec.toNat_ofNat v.toNat 8

theorem cont_byte (v : UInt32) : (v.toUInt8 &&& 0x3f ||| 0x80).toNat = v.toNat % 64 + 128 := by
  have h := byte_cont ⟨v.toNat % 256, Nat.mod_lt _ (by decide)⟩
  simp only at h
  rw [u8_toNat_or, u8_toNat_and, u32_toUInt8_toNat]
  show v.toNat % 256 &&& 63 ||| 128 = _
  omega


theorem u32_shr6 (v : UInt32) : (v >>> 6).toNat = v.toNat / 64 := by
  show (v.toBitVec >>> (UInt32.mod 6 32).toBitVec).toNat = _
  have h : (UInt32.mod 6 32).toBitVec = 6#32 := by decide
  rw [h]
  simp [UInt32.toNat, Nat.shiftRight_eq_div_pow]

theorem u32_shr12 (v : UInt32) : (v >>> 12).toNat = v.toNat / 4096 := by
  show (v.toBitVec >>> (UInt32.mod 12 32).toBitVec).toNat = _
  have h : (UInt32.mod 12 32).toBitVec = 12#32 := by decide
  rw [h]
  simp [UInt32.toNat, Nat.shiftRight_eq_div_pow]

theorem u32_shr18 (v : UInt32) : (v >>> 18).toNat = v.toNat / 262144 := by
  show (v.toBitVec >>> (UInt32.mod 18 32).toBitVec).toNat = _
  have h : (UInt32.mod 18 32).toBitVec = 18#32 := by decide
  rw [h]
  simp [UInt32.toNat, Nat.shiftRight_eq_div_pow]

theorem lead2_byte (v : UInt32) : (v.toUInt8 &&& 0x1f ||| 0xc0).toNat = v.toNat % 32 + 192 := by
  have h := byte_lead2 ⟨v.toNat % 256, Nat.mod_lt _ (by decide)⟩
  simp only at h
  rw [u8_toNat_or, u8_toNat_and, u32_toUInt8_toNat]
  show v.toNat % 256 &&& 31 ||| 192 = _
  omega

theorem lead3_byte (v : UInt32) : (v.toUInt8 &&& 0x0f ||| 0xe0).toNat = v.toNat % 16 + 224 := by
  have h := byte_lead3 ⟨v.toNat % 256, Nat.mod_lt _ (by decide)⟩
  simp only at h
  rw [u8_toNat_or, u8_toNat_and, u32_toUInt8_toNat]
  show v.toNat % 256 &&& 15 ||| 224 = _
  omega

theorem lead4_byte (v : UInt32) : (v.toUInt8 &&& 0x07 ||| 0xf0).toNat = v.toNat % 8 + 240 := by
  have h := byte_lead4 ⟨v.toNat % 256, Nat.mod_lt _ (by decide)⟩
  simp only at h
  rw [u8_toNat_or, u8_toNat_and, u32_toUInt8_toNat]
  show v.toNat % 256 &&& 7 ||| 240 = _
  omega

theorem u32_le_iff (a : UInt32) (k : Nat) (hk : k < 4294967296) :
    a ≤ (OfNat.ofNat k : UInt32) ↔ a.toNat ≤ k := by
  show a.toBitVec ≤ (BitVec.ofNat 32 k) ↔ _
  rw [BitVec.le_def]
  simp [UInt32.toNat, Nat.mod_eq_of_lt hk]

theorem utf8EncodeChar_toNat (c : Char) :
    (String.utf8EncodeChar c).map UInt8.toNat = utf8Nat c.val.toNat := by
  unfold String.utf8EncodeChar utf8Nat
  simp only [u32_le_iff _ _ (by decide : (0x7f:Nat) < 4294967296), u32_le_iff _ _ (by decide : (0x7ff:Nat) < 4294967296),
    u32_le_iff _ _ (by decide : (0xffff:Nat) < 4294967296)]
  split_ifs
  · simp [u32_toUInt8_toNat]; omega
  · simp [cont_byte, lead2_byte, u32_shr6]
  · simp [cont_byte, lead3_byte, u32_shr6, u32_shr12]
  · simp [cont_byte, lead4_byte, u32_shr6, u32_shr12, u32_shr18]

theorem utf8Nat_append_inj (n m : Nat) (xs ys : List Nat) (hn : n < 0x110000) (hm : m < 0x110000)
    (h : utf8Nat n ++ xs = utf8Nat m ++ ys) : n = m ∧ xs = ys := by
  unfold utf8Nat at h
  split_ifs at h <;>
    simp only [List.cons_append, List.nil_append, List.cons.injEq] at h <;>
    first
    | (exfalso; omega)
    | exact ⟨by omega, by first | exact h.2 | exact h.2.2 | exact h.2.2.2 | exact h.2.2.2.2⟩

theorem utf8Nat_ne_nil (n : Nat) : utf8Nat n ≠ [] := by
  unfold utf8Nat
  split_ifs <;> simp

theorem textBytes_eq (s : String) :
    textBytes s = s.data.flatMap (fun c => utf8Nat c.val.toNat) := by
  simp only [textBytes, String.toUTF8]
  induction s.data with
  | nil => rfl
  | cons c cs ih =>
    simp only [List.flatMap_cons, List.map_append, utf8EncodeChar_toNat] at ih ⊢
    rw [ih]

theorem char_val_lt (c : Char) : c.val.toNat < 0x110000 := by
  rcases c.valid with h | ⟨_, h⟩
  · have : c.val.toNat < 0xd800 := h
    omega
  · exact h

theorem flatMap_utf8Nat_inj (l1 l2 : List Char)
    (h : l1.flatMap (fun c => utf8Nat c.val.toNat) = l2.flatMap (fun c => utf8Nat c.val.toNat)) :
    l1 = l2 := by
  induction l1 generalizing l2 with
  | nil =>
    cases l2 with
    | nil => rfl
    | cons d ds =>
      simp only [List.flatMap_nil, List.flatMap_cons] at h
      have := utf8Nat_ne_nil d.val.toNat
      cases hd : utf8Nat d.val.toNat with
      | nil => exact absurd hd this
      | cons _ _ => rw [hd] at h; simp at h
  | cons c cs ih =>
    cases l2 with
    | nil =>
      simp only [List.flatMap_nil, List.flatMap_cons] at h
      have := utf8Nat_ne_nil c.val.toNat
      cases hd : utf8Nat c.val.toNat with
      | nil => exact absurd hd this
      | cons _ _ => rw [hd] at h; simp at h
    | cons d ds =>
      simp only [List.flatMap_cons] at h
      obtain ⟨h1, h2⟩ := utf8Nat_append_inj _ _ _ _ (char_val_lt c) (char_val_lt d) h
      have hcd : c = d := Char.ext (UInt32.ext (by exact h1)) 
      rw [hcd, ih ds h2]

theorem textBytes_injective (a b : String) (h : textBytes a = textBytes b) : a = b := by
  rw [textBytes_eq, textBytes_eq] at h
  exact String.ext (flatMap_utf8Nat_inj _ _ h)

theorem compareBytes_eq_zero_iff (x y : List Nat) : compareBytes x y = 0 ↔ x = y := by
  induction x generalizing y with
  | nil => cases y <;> simp [compareBytes]
  | cons a as ih =>
    cases y with
    | nil => simp [compareBytes]
    | cons b bs =>
      simp only [compareBytes, List.cons.injEq]
      split_ifs with h1 h2
      · simp; omega
      · simp; omega
      · rw [ih]
        have : a = b := by omega
        simp [this]

theorem compareBytes_neg_iff (x y : List Nat) :
    compareBytes x y < 0 ↔ List.Lex (fun a b => a < b) x y := by
  induction x generalizing y with
  | nil =>
    cases y with
    | nil => simp [compareBytes]
    | cons b bs => simp [compareBytes, List.Lex.nil]
  | cons a as ih =>
    cases y with
    | nil => simp [compareBytes]
    | cons b bs =>
      simp only [compareBytes]
      split_ifs with h1 h2
      · simp only [Int.reduceNeg, Int.reduceLT, true_iff]
        exact List.Lex.rel h1
      · simp only [Int.reduceLT, false_iff]
        intro h
        cases h with
        | cons h => omega
        | rel h => omega
      · have hab : a = b := by omega
        subst hab
        rw [ih]
        constructor
        · intro h
          exact List.Lex.cons h
        · intro h
          cases h with
          | cons h => exact h
          | rel h => omega

/-- The comparison of two texts, as `binComp` sees it on `s ++ [Text a, Text b]`. -/
theorem Action.binComp_text (s : ValueStack) (a b : String) :
    Action.binComp (s ++ [Value.STRING a, Value.STRING b])
      = (Except.ok (compareBytes (textBytes a) (textBytes b)), s) :=
  Action.binComp_of_compare s _ _ _ rfl

/-! ## Pattern matching -/

theorem matchStringAsRegex_execute_pair (re : RegexCompiler) (pa : pAtom) (s : ValueStack)
    (subject pattern : String) :
    (matchStringAsRegex.setAtom pa).execute re (s ++ [Value.STRING subject, Value.STRING pattern]) =
      match re pattern perl_icase with
      | some rx =>
          (Except.ok (), s ++ [if regex_search subject rx then Value.INT 1 else Value.INT 0])
      | none => (Except.error Fault.InvalidPattern, s ++ [Value.STRING subject]) := by
  rw [ValueStack.append_pair]
  simp only [Action.execute, matchStringAsRegex, Action.setAtom, Action.mk0, VM.bind_apply,
    ValueStack.pop_concat, Value.getString, VM.ofExcept_ok]
  cases re pattern perl_icase with
  | none => rfl
  | some rx =>
    simp only [VM.pure_apply, ValueStack.pop_concat, Value.getString, VM.ofExcept_ok,
      ValueStack.push_apply]

theorem matchRegex_execute_top (re : RegexCompiler) (pa : pAtom) (s : ValueStack)
    (regexp : Regex) (what : String) (x : Value) :
    ((Action.mk0 "matchRegex" (Kind.matchRegex regexp what)).setAtom pa).execute re (s ++ [x]) =
      match x with
      | Value.STRING t =>
          (Except.ok (), s ++ [if regex_search t regexp then Value.INT 1 else Value.INT 0])
      | _ => (Except.error Fault.TypeMismatch, s) := by
  simp only [Action.execute, Action.setAtom, Action.mk0, VM.bind_apply, ValueStack.pop_concat]
  cases x <;> rfl

theorem bindAtom_cons (pa : pAtom) (a : Action) (rest : List Action) :
    bindAtom pa (a :: rest) = a.setAtom pa :: bindAtom pa rest := rfl

theorem bindAtom_nil (pa : pAtom) : bindAtom pa [] = [] := rfl

theorem executeAll_cons (re : RegexCompiler) (a : Action) (rest : List Action) (s : ValueStack) :
    executeAll re (a :: rest) s =
      match a.execute re s with
      | (Except.ok _, s1) => executeAll re rest s1
      | (Except.error e, s1) => (Except.error e, s1) := by
  simp only [executeAll, VM.bind_apply]
  rcases Action.execute re a s with ⟨_ | _, s1⟩ <;> rfl

theorem executeAll_nil (re : RegexCompiler) (s : ValueStack) :
    executeAll re [] s = (Except.ok (), s) := rfl

theorem startsWith_iff (lit s : List Char) :
    startsWith lit s = true ↔ ∃ post, s = lit ++ post := by
  induction lit generalizing s with
  | nil => simp [startsWith]
  | cons p ps ih =>
    cases s with
    | nil => simp [startsWith]
    | cons c cs =>
      simp only [startsWith, Bool.and_eq_true, beq_iff_eq, ih, List.cons_append, List.cons.injEq]
      constructor
      · rintro ⟨rfl, post, rfl⟩
        exact ⟨post, rfl, rfl⟩
      · rintro ⟨post, rfl, rfl⟩
        exact ⟨rfl, post, rfl⟩

theorem occursIn_iff (lit s : List Char) :
    occursIn lit s = true ↔ ∃ pre post, s = pre ++ lit ++ post := by
  induction s with
  | nil =>
    simp only [occursIn, startsWith_iff]
    constructor
    · rintro ⟨post, h⟩
      exact ⟨[], post, by simpa using h⟩
    · rintro ⟨pre, post, h⟩
      have h1 : pre ++ lit ++ post = [] := h.symm
      simp only [List.append_eq_nil] at h1
      exact ⟨[], by simp [h1.1.2]⟩
  | cons c cs ih =>
    simp only [occursIn, Bool.or_eq_true, startsWith_iff, ih]
    constructor
    · rintro (⟨post, h⟩ | ⟨pre, post, h⟩)
      · exact ⟨[], post, by simpa using h⟩
      · exact ⟨c :: pre, post, by simp [h]⟩
    · rintro ⟨pre, post, h⟩
      cases pre with
      | nil => exact Or.inl ⟨post, by simpa using h⟩
      | cons d pre1 =>
        simp only [List.cons_append, List.cons.injEq] at h
        exact Or.inr ⟨pre1, post, h.2⟩

/-- A match somewhere in the subject, told on the folded characters. -/
theorem matchesSomewhere_iff_folded (p : PlainPattern) (icase : Bool) (subject : String) :
    MatchesSomewhere p icase subject ↔
      ∃ pre post : List Char,
        subject.data.map (foldCase icase) = pre ++ p.literal.map (foldCase icase) ++ post ∧
        (p.atStart = true → pre = []) ∧ (p.atEnd = true → post = []) := by
  constructor
  · rintro ⟨pre, mid, post, hs, hm, ha, he⟩
    refine ⟨pre.map (foldCase icase), post.map (foldCase icase), ?_, ?_, ?_⟩
    · rw [hs, List.map_append, List.map_append, hm]
    · intro h; simp [ha h]
    · intro h; simp [he h]
  · rintro ⟨pre, post, hs, ha, he⟩
    obtain ⟨l1, l2, h1, h2, h3⟩ := List.map_eq_append_iff.mp hs
    obtain ⟨a, b, h4, h5, h6⟩ := List.map_eq_append_iff.mp h2
    refine ⟨a, b, l2, by rw [h1, h4], h6, ?_, ?_⟩
    · intro h
      have := ha h
      subst this
      simpa using h5
    · intro h
      have := he h
      subst this
      simpa using h3

/-- The search that can be run finds a plain pattern exactly when the pattern
matches somewhere in the subject. -/
theorem plainSearch_iff (p : PlainPattern) (icase : Bool) (subject : String) :
    plainSearch p icase subject.data = true ↔ MatchesSomewhere p icase subject := by
  rw [matchesSomewhere_iff_folded]
  obtain ⟨a, lit, e⟩ := p
  cases a <;> cases e <;> simp only [plainSearch]
  · rw [occursIn_iff]
    simp
  · rw [startsWith_iff]
    constructor
    · rintro ⟨post, h⟩
      refine ⟨post.reverse, [], ?_, by simp, by simp⟩
      have h2 := congrArg List.reverse h
      simpa using h2
    · rintro ⟨pre, post, h, _, hp⟩
      have hp2 : post = [] := hp (by simp)
      subst hp2
      exact ⟨pre.reverse, by rw [h]; simp⟩
  · rw [startsWith_iff]
    constructor
    · rintro ⟨post, h⟩
      exact ⟨[], post, by simpa using h, by simp, by simp⟩
    · rintro ⟨pre, post, h, hp, _⟩
      have hp2 : pre = [] := hp (by simp)
      subst hp2
      exact ⟨post, by simpa using h⟩
  · simp only [decide_eq_true_eq]
    constructor
    · intro h
      exact ⟨[], [], by simpa using h, by simp, by simp⟩
    · rintro ⟨pre, post, h, hp, hq⟩
      have hp2 : pre = [] := hp (by simp)
      have hq2 : post = [] := hq (by simp)
      subst hp2 hq2
      simpa using h

/-- The compiler that can be run does what is required of the regex library. -/
theorem plainRegex_faithful : FaithfulOnPlain plainRegex := by
  intro pattern flags p _ hp
  refine ⟨fun subject => plainSearch p flags.icase subject.data, by simp [plainRegex, hp], ?_⟩
  intro subject _
  exact plainSearch_iff p flags.icase subject

theorem parsePlain_caret_C :
    parsePlain "^C" = some { atStart := true, literal := ['C'], atEnd := false } := by
  decide

theorem parsePlain_CA :
    parsePlain "CA" = some { atStart := false, literal := ['C', 'A'], atEnd := false } := by
  decide

theorem matchStringAsRegex_execute_compiled (re : RegexCompiler) (pa : pAtom) (s : ValueStack)
    (subject pattern : String) (rx : Regex) (h : re pattern perl_icase = some rx) :
    (matchStringAsRegex.setAtom pa).execute re (s ++ [Value.STRING subject, Value.STRING pattern])
      = (Except.ok (), s ++ [if rx subject = true then Value.INT 1 else Value.INT 0]) := by
  rw [matchStringAsRegex_execute_pair, h]
  rfl

/-- The program `[pushAtomName, pushString(pattern), matchStringAsRegex]` on the
empty stack, for a pattern that compiles. -/
theorem executeAll_name_pattern (re : RegexCompiler) (at0 : Atom) (pattern : String) (rx : Regex)
    (h : re pattern perl_icase = some rx) :
    executeAll re (bindAtom (some at0) [pushAtomName, pushString pattern, matchStringAsRegex]) []
      = (Except.ok (), [if rx at0.name = true then Value.INT 1 else Value.INT 0]) := by
  have h1 : (pushAtomName.setAtom (some at0)).execute re [] = (Except.ok (), [Value.STRING at0.name]) :=
    rfl
  have h2 : ((pushString pattern).setAtom (some at0)).execute re [Value.STRING at0.name]
      = (Except.ok (), [] ++ [Value.STRING at0.name, Value.STRING pattern]) := rfl
  simp only [bindAtom_cons, bindAtom_nil, executeAll_cons, executeAll_nil, h1, h2,
    matchStringAsRegex_execute_compiled re _ [] at0.name pattern rx h]
  rfl

/-- The plain pattern `^C` matches somewhere in "CA", and nowhere in "N". -/
theorem caret_C_matches :
    MatchesSomewhere { atStart := true, literal := ['C'], atEnd := false } true "CA" ∧
    ¬ MatchesSomewhere { atStart := true, literal := ['C'], atEnd := false } true "N" :=
  ⟨(plainSearch_iff _ true "CA").mp (by decide), fun h => absurd ((plainSearch_iff _ true "N").mpr h)
    (by decide)⟩

/-- C11: `matchStringAsRegex` takes the top of the stack as the pattern and the
value below it as the subject, and compiles the pattern with `perl|icase`.  For
every stack `s ++ [Text subject, Text pattern]` whose pattern compiles, it leaves
`s ++ [Integer 1]` if `regex_search` finds the compiled pattern in the subject and
`s ++ [Integer 0]` otherwise.  With a regex library that does what is required of
it on plain patterns, this is, for a plain pattern and a subject without line
breaks: `s ++ [Integer 1]` if the pattern matches somewhere in the subject without
regard to case, `s ++ [Integer 0]` otherwise.  Hence the program `[pushAtomName,
pushString("^C"), matchStringAsRegex]` yields Integer 1 for an atom named "CA" and
Integer 0 for an atom named "N". -/
theorem matchStringAsRegex_pattern_on_top (re : RegexCompiler) (hre : FaithfulOnPlain re)
    (pa : pAtom) (s : ValueStack) (subject pattern : String) (rx : Regex) (at0 : Atom)
    (h : re pattern perl_icase = some rx) :
    (matchStringAsRegex.setAtom pa).execute re (s ++ [Value.STRING subject, Value.STRING pattern])
        = (Except.ok (), s ++ [if rx subject = true then Value.INT 1 else Value.INT 0]) ∧
    (∀ p : PlainPattern, parsePlain pattern = some p → singleLine subject = true →
      (MatchesSomewhere p true subject →
        (matchStringAsRegex.setAtom pa).execute re
            (s ++ [Value.STRING subject, Value.STRING pattern])
          = (Except.ok (), s ++ [Value.INT 1])) ∧
      (¬ MatchesSomewhere p true subject →
        (matchStringAsRegex.setAtom pa).execute re
            (s ++ [Value.STRING subject, Value.STRING pattern])
          = (Except.ok (), s ++ [Value.INT 0]))) ∧
    executeAll re (bindAtom (some { at0 with name := "CA" })
        [pushAtomName, pushString "^C", matchStringAsRegex]) []
      = (Except.ok (), [Value.INT 1]) ∧
    executeAll re (bindAtom (some { at0 with name := "N" })
        [pushAtomName, pushString "^C", matchStringAsRegex]) []
      = (Except.ok (), [Value.INT 0]) := by
  have hexec := matchStringAsRegex_execute_compiled re pa s subject pattern rx h
  refine ⟨hexec, ?_, ?_, ?_⟩
  · intro p hp hs
    obtain ⟨rx1, h1, hm⟩ := hre pattern perl_icase p rfl hp
    rw [h] at h1
    simp only [Option.some.injEq] at h1
    subst h1
    have hiff := hm subject hs
    constructor
    · intro hyes
      rw [hexec, if_pos (hiff.mpr hyes)]
    · intro hno
      rw [hexec, if_neg (fun hx => hno (hiff.mp hx))]
  · obtain ⟨rxC, hC, hm⟩ := hre "^C" perl_icase _ rfl parsePlain_caret_C
    rw [executeAll_name_pattern re _ "^C" rxC hC]
    have hyes : rxC "CA" = true := (hm "CA" (by decide)).mpr caret_C_matches.1
    rw [if_pos hyes]
  · obtain ⟨rxC, hC, hm⟩ := hre "^C" perl_icase _ rfl parsePlain_caret_C
    rw [executeAll_name_pattern re _ "^C" rxC hC]
    have hno : ¬ rxC "N" = true := fun hx => caret_C_matches.2 ((hm "N" (by decide)).mp hx)
    rw [if_neg hno]

/-- Witness of C11: the compiler that can be run does what is required; with it,
the subject "ca" below the pattern `^C` gives Integer 1, and the program of
scenario B gives Integer 1 for an atom named "CA" and Integer 0 for one named
"N". -/
theorem matchStringAsRegex_pattern_on_top_witness :
    FaithfulOnPlain plainRegex ∧
    plainRegex "^C" perl_icase
      = some (fun subject => plainSearch { atStart := true, literal := ['C'], atEnd := false }
          true subject.data) ∧
    (matchStringAsRegex.setAtom none).execute plainRegex
        ([Value.INT 7] ++ [Value.STRING "ca", Value.STRING "^C"])
      = (Except.ok (), [Value.INT 7] ++ [Value.INT 1]) ∧
    executeAll plainRegex (bindAtom (some { Atom.mk "X" 2 "ALA" 1 "PROT" with name := "CA" })
        [pushAtomName, pushString "^C", matchStringAsRegex]) []
      = (Except.ok (), [Value.INT 1]) ∧
    executeAll plainRegex (bindAtom (some { Atom.mk "X" 2 "ALA" 1 "PROT" with name := "N" })
        [pushAtomName, pushString "^C", matchStringAsRegex]) []
      = (Except.ok (), [Value.INT 0]) :=
  have h := matchStringAsRegex_pattern_on_top plainRegex plainRegex_faithful none [Value.INT 7]
    "ca" "^C"
    (fun subject => plainSearch { atStart := true, literal := ['C'], atEnd := false }
      true subject.data)
    (Atom.mk "X" 2 "ALA" 1 "PROT") rfl
  ⟨plainRegex_faithful, rfl,
    (h.2.1 { atStart := true, literal := ['C'], atEnd := false } (by decide) (by decide)).1
      ((plainSearch_iff _ true "ca").mp (by decide)),
    h.2.2.1, h.2.2.2⟩

theorem matchRegex_execute_not_invalidPattern (re : RegexCompiler) (pa : pAtom) (s : ValueStack)
    (regexp : Regex) (what : String) :
    (((Action.mk0 "matchRegex" (Kind.matchRegex regexp what)).setAtom pa).execute re s).1
      ≠ Except.error Fault.InvalidPattern := by
  rcases List.eq_nil_or_concat s with rfl | ⟨s0, x, rfl⟩
  · intro h
    have h2 : ((Action.mk0 "matchRegex" (Kind.matchRegex regexp what)).setAtom pa).execute re []
        = (Except.error Fault.StackUnderflow, []) := rfl
    rw [h2] at h
    simp at h
  · rw [List.concat_eq_append, matchRegex_execute_top]
    cases x <;> simp

theorem matchRegex_execute_text (re : RegexCompiler) (pa : pAtom) (s : ValueStack)
    (regexp : Regex) (what t : String) :
    ((Action.mk0 "matchRegex" (Kind.matchRegex regexp what)).setAtom pa).execute re
        (s ++ [Value.STRING t])
      = (Except.ok (), s ++ [if regexp t = true then Value.INT 1 else Value.INT 0]) := by
  rw [matchRegex_execute_top]
  rfl

/-- The plain pattern `CA` matches somewhere in "ca" without regard to case. -/
theorem CA_matches_ca :
    MatchesSomewhere { atStart := false, literal := ['C', 'A'], atEnd := false } true "ca" :=
  (plainSearch_iff _ true "ca").mp (by decide)

/-- C12: a `matchRegex` opcode that was constructed successfully from the pattern
`p` holds the pattern compiled with `perl|icase`.  On every stack `s ++ [Text t]`
its execution leaves `s ++ [Integer 1]` if `regex_search` finds the compiled
pattern in `t` and `s ++ [Integer 0]` otherwise.  With a regex library that does
what is required of it on plain patterns, this is, for a plain pattern `p` and a
text without line breaks: `s ++ [Integer 1]` if `p` matches somewhere in `t`
without regard to case, `s ++ [Integer 0]` otherwise; so the opcode built from
`CA` leaves Integer 1 on the text "ca".  On no stack at all does the execution
raise `InvalidPattern`, whatever compiler is in use then: the pattern is compiled
by the constructor, which rejects a pattern `q` with `InvalidPattern` exactly when
`q` does not compile. -/
theorem matchRegex_pattern_precompiled (re re2 : RegexCompiler) (hre : FaithfulOnPlain re)
    (p q : String) (a : Action) (pa : pAtom) (s s2 : ValueStack) (t : String)
    (h : matchRegex re p = Except.ok a) :
    (∃ rx, re p perl_icase = some rx ∧
      (a.setAtom pa).execute re2 (s ++ [Value.STRING t])
        = (Except.ok (), s ++ [if rx t = true then Value.INT 1 else Value.INT 0])) ∧
    (∀ pp : PlainPattern, parsePlain p = some pp → singleLine t = true →
      (MatchesSomewhere pp true t →
        (a.setAtom pa).execute re2 (s ++ [Value.STRING t]) = (Except.ok (), s ++ [Value.INT 1])) ∧
      (¬ MatchesSomewhere pp true t →
        (a.setAtom pa).execute re2 (s ++ [Value.STRING t]) = (Except.ok (), s ++ [Value.INT 0]))) ∧
    (∃ aCA, matchRegex re "CA" = Except.ok aCA ∧
      (aCA.setAtom pa).execute re2 (s ++ [Value.STRING "ca"])
        = (Except.ok (), s ++ [Value.INT 1])) ∧
    ((a.setAtom pa).execute re2 s2).1 ≠ Except.error Fault.InvalidPattern ∧
    (matchRegex re q = Except.error Fault.InvalidPattern ↔ re q perl_icase = none) := by
  have hq : matchRegex re q = Except.error Fault.InvalidPattern ↔ re q perl_icase = none := by
    unfold matchRegex
    cases re q perl_icase <;> simp
  have hCA : ∃ aCA, matchRegex re "CA" = Except.ok aCA ∧
      (aCA.setAtom pa).execute re2 (s ++ [Value.STRING "ca"])
        = (Except.ok (), s ++ [Value.INT 1]) := by
    obtain ⟨rx1, h1, hm⟩ := hre "CA" perl_icase _ rfl parsePlain_CA
    refine ⟨Action.mk0 "matchRegex" (Kind.matchRegex rx1 "CA"), by simp [matchRegex, h1], ?_⟩
    rw [matchRegex_execute_text, if_pos ((hm "ca" (by decide)).mpr CA_matches_ca)]
  unfold matchRegex at h
  cases hp : re p perl_icase with
  | none => rw [hp] at h; simp at h
  | some rx =>
    rw [hp] at h
    simp only [Except.ok.injEq] at h
    subst h
    have hexec := matchRegex_execute_text re2 pa s rx p t
    refine ⟨⟨rx, rfl, hexec⟩, ?_, hCA, matchRegex_execute_not_invalidPattern re2 pa s2 rx p, hq⟩
    intro pp hpp hs
    obtain ⟨rx1, h1, hm⟩ := hre p perl_icase pp rfl hpp
    rw [hp] at h1
    simp only [Option.some.injEq] at h1
    subst h1
    have hiff := hm t hs
    constructor
    · intro hyes
      rw [hexec, if_pos (hiff.mpr hyes)]
    · intro hno
      rw [hexec, if_neg (fun hx => hno (hiff.mp hx))]

/-- Witness of C12: the opcode built from `^ca$` by the compiler that can be run,
on the stack holding the text "CA": Integer 1; on the stack `[Integer 3]` no
`InvalidPattern`; the constructor on the pattern `(`. -/
theorem matchRegex_pattern_precompiled_witness :
    FaithfulOnPlain plainRegex ∧
    matchRegex plainRegex "^ca$"
      = Except.ok (Action.mk0 "matchRegex"
          (Kind.matchRegex (fun subject =>
            plainSearch { atStart := true, literal := ['c', 'a'], atEnd := true } true subject.data)
            "^ca$")) ∧
    ((Action.mk0 "matchRegex"
          (Kind.matchRegex (fun subject =>
            plainSearch { atStart := true, literal := ['c', 'a'], atEnd := true } true subject.data)
            "^ca$")).setAtom none).execute plainRegex ([Value.INT 7] ++ [Value.STRING "CA"])
      = (Except.ok (), [Value.INT 7] ++ [Value.INT 1]) ∧
    (((Action.mk0 "matchRegex"
          (Kind.matchRegex (fun subject =>
            plainSearch { atStart := true, literal := ['c', 'a'], atEnd := true } true subject.data)
            "^ca$")).setAtom none).execute plainRegex [Value.INT 3]).1
      ≠ Except.error Fault.InvalidPattern ∧
    (matchRegex plainRegex "(" = Except.error Fault.InvalidPattern
      ↔ plainRegex "(" perl_icase = none) :=
  have h := matchRegex_pattern_precompiled plainRegex plainRegex plainRegex_faithful "^ca$" "("
    (Action.mk0 "matchRegex"
      (Kind.matchRegex (fun subject =>
        plainSearch { atStart := true, literal := ['c', 'a'], atEnd := true } true subject.data)
        "^ca$"))
    none [Value.INT 7] [Value.INT 3] "CA" rfl
  ⟨plainRegex_faithful, rfl,
    (h.2.1 { atStart := true, literal := ['c', 'a'], atEnd := true } (by decide) (by decide)).1
      ((plainSearch_iff _ true "CA").mp (by decide)),
    h.2.2.2.1, h.2.2.2.2⟩

/-! ## Scenario A -/

/-- C13: scenario A, for every atom.  Executing `[pushAtomResname,
pushString("ALA"), equals]` on the empty stack with the atom bound leaves exactly
one value: Integer 1 if the residue name of the atom is exactly "ALA", Integer 0
otherwise; for the residue name "GLY" it is Integer 0. -/
theorem scenario_resname_equals_ALA (re : RegexCompiler) (at0 : Atom) :
    executeAll re (bindAtom (some at0) [pushAtomResname, pushString "ALA", equals]) []
        = (Except.ok (), [if at0.resname = "ALA" then Value.INT 1 else Value.INT 0]) ∧
    executeAll re (bindAtom (some { at0 with resname := "GLY" })
        [pushAtomResname, pushString "ALA", equals]) []
        = (Except.ok (), [Value.INT 0]) := by
  have key : ∀ at1 : Atom,
      executeAll re (bindAtom (some at1) [pushAtomResname, pushString "ALA", equals]) []
        = (Except.ok (), [if at1.resname = "ALA" then Value.INT 1 else Value.INT 0]) := by
    intro at1
    have h1 : (pushAtomResname.setAtom (some at1)).execute re []
        = (Except.ok (), [Value.STRING at1.resname]) := rfl
    have h2 : ((pushString "ALA").setAtom (some at1)).execute re [Value.STRING at1.resname]
        = (Except.ok (), [] ++ [Value.STRING at1.resname, Value.STRING "ALA"]) := rfl
    have h3 := equals_execute_of_binComp re (some at1) _ _ _
      (Action.binComp_text [] at1.resname "ALA")
    simp only [bindAtom_cons, bindAtom_nil, executeAll_cons, executeAll_nil, h1, h2, h3,
      compareBytes_eq_zero_iff]
    by_cases hr : at1.resname = "ALA"
    · simp [hr]
    · have hb : textBytes at1.resname ≠ textBytes "ALA" := fun hb => hr (textBytes_injective _ _ hb)
      simp [hr, hb]
  refine ⟨key at0, ?_⟩
  rw [key]
  rfl

/-! ## Independence of the atom -/

/-- An opcode that is not an atom-property opcode executes the same way whatever
its `atom` member holds. -/
theorem execute_setAtom_of_not_atomProperty (re : RegexCompiler) (a : Action)
    (h : a.kind.isAtomProperty = false) (pa pb : pAtom) :
    (a.setAtom pa).execute re = (a.setAtom pb).execute re := by
  obtain ⟨at0, nm, k⟩ := a
  cases k <;> first | rfl | simp [Kind.isAtomProperty] at h

theorem executeAll_bindAtom_of_no_atomProperty (re : RegexCompiler) (prog : List Action)
    (h : ∀ a ∈ prog, a.kind.isAtomProperty = false) (pa pb : pAtom) (s : ValueStack) :
    executeAll re (bindAtom pa prog) s = executeAll re (bindAtom pb prog) s := by
  induction prog generalizing s with
  | nil => rfl
  | cons a rest ih =>
    have ha := execute_setAtom_of_not_atomProperty re a (h a (List.mem_cons_self a rest)) pa pb
    have hrest : ∀ b ∈ rest, b.kind.isAtomProperty = false :=
      fun b hb => h b (List.mem_cons_of_mem a hb)
    simp only [bindAtom_cons, executeAll_cons, ha]
    rcases (a.setAtom pb).execute re s with ⟨_ | _, s1⟩
    · rfl
    · exact ih hrest s1

/-- C14: atom independence.  For every opcode sequence that contains no
atom-property opcode, the outcome of executing it on the empty stack, resulting
stack or fault (with the stack the fault left), is the same whatever atom `pa`,
`pb` is bound, a real atom or none.  In particular `[pushInt(1), pushInt(0),
logicalOr]` leaves exactly `[Integer 1]` whatever atom is or is not bound. -/
theorem atom_independence (re : RegexCompiler) (prog : List Action) (pa pb : pAtom)
    (h : ∀ a ∈ prog, a.kind.isAtomProperty = false) :
    executeAll re (bindAtom pa prog) [] = executeAll re (bindAtom pb prog) [] ∧
    executeAll re (bindAtom pa [pushInt 1, pushInt 0, logicalOr]) []
      = (Except.ok (), [Value.INT 1]) :=
  ⟨executeAll_bindAtom_of_no_atomProperty re prog h pa pb [], by cases pa <;> rfl⟩

/-- Witness of C14: the program `[pushInt(1), pushInt(0), logicalOr]`, with an atom
bound and with none. -/
theorem atom_independence_witness :
    (∀ a ∈ [pushInt 1, pushInt 0, logicalOr], a.kind.isAtomProperty = false) ∧
    executeAll plainRegex (bindAtom (some (Atom.mk "CA" 2 "ALA" 1 "PROT"))
        [pushInt 1, pushInt 0, logicalOr]) []
      = executeAll plainRegex (bindAtom none [pushInt 1, pushInt 0, logicalOr]) [] ∧
    executeAll plainRegex (bindAtom (some (Atom.mk "CA" 2 "ALA" 1 "PROT"))
        [pushInt 1, pushInt 0, logicalOr]) []
      = (Except.ok (), [Value.INT 1]) :=
  have hp : ∀ a ∈ [pushInt 1, pushInt 0, logicalOr], a.kind.isAtomProperty = false := by
    intro a ha
    simp only [List.mem_cons, List.mem_singleton, List.not_mem_nil, or_false] at ha
    rcases ha with rfl | rfl | rfl <;> rfl
  ⟨hp, atom_independence plainRegex [pushInt 1, pushInt 0, logicalOr]
    (some (Atom.mk "CA" 2 "ALA" 1 "PROT")) none hp⟩

/-- C15: for every integer `x` in {0, 1} and every stack `s`, executing
`logicalNot` twice on `s ++ [Integer x]` leaves `s ++ [Integer x]`. -/
theorem logicalNot_twice_identity (re : RegexCompiler) (pa pb : pAtom) (s : ValueStack) (x : Int)
    (h : x = 0 ∨ x = 1) :
    executeAll re [logicalNot.setAtom pa, logicalNot.setAtom pb] (s ++ [Value.INT x])
      = (Except.ok (), s ++ [Value.INT x]) := by
  simp only [executeAll_cons, executeAll_nil, logicalNot_execute_top]
  rcases h with rfl | rfl
  · simp only [Value.ofBool, beq_self_eq_true, if_true, logicalNot_execute_top]
    rfl
  · simp only [Value.ofBool, logicalNot_execute_top]
    rfl

/-- Witness of C15: Integer 1 on top of a stack that holds a text. -/
theorem logicalNot_twice_identity_witness :
    ((1 : Int) = 0 ∨ (1 : Int) = 1) ∧
    executeAll plainRegex [logicalNot.setAtom none, logicalNot.setAtom none]
        ([Value.STRING "x"] ++ [Value.INT 1])
      = (Except.ok (), [Value.STRING "x"] ++ [Value.INT 1]) :=
  ⟨Or.inr rfl, logicalNot_twice_identity plainRegex none none [Value.STRING "x"] 1 (Or.inr rfl)⟩

/-! ## Faults and the atom -/

theorem shape_cases (s1 s2 : ValueStack) (h : ValueStack.shape s1 = ValueStack.shape s2) :
    (s1 = [] ∧ s2 = []) ∨
    ∃ t1 v1 t2 v2, s1 = t1 ++ [v1] ∧ s2 = t2 ++ [v2] ∧
      ValueStack.shape t1 = ValueStack.shape t2 ∧ v1.type = v2.type := by
  rcases List.eq_nil_or_concat s1 with rfl | ⟨t1, v1, rfl⟩
  · left
    refine ⟨rfl, ?_⟩
    simpa [ValueStack.shape] using h.symm
  · rcases List.eq_nil_or_concat s2 with rfl | ⟨t2, v2, rfl⟩
    · simp [ValueStack.shape] at h
    · right
      refine ⟨t1, v1, t2, v2, by simp, by simp, ?_⟩
      simp only [ValueStack.shape, List.concat_eq_append, List.map_append, List.map_cons,
        List.map_nil] at h
      have h2 := List.append_inj' h rfl
      simpa [ValueStack.shape] using h2

theorem shape_concat (t1 t2 : ValueStack) (v1 v2 : Value)
    (h : ValueStack.shape t1 = ValueStack.shape t2) (hv : v1.type = v2.type) :
    ValueStack.shape (t1 ++ [v1]) = ValueStack.shape (t2 ++ [v2]) := by
  simp only [ValueStack.shape, List.map_append, List.map_cons, List.map_nil] at h ⊢
  rw [h, hv]

theorem VM.related_pure {α : Type} (R : α → α → Prop) (a1 a2 : α) (h : R a1 a2) :
    VM.Related R (pure a1) (pure a2) :=
  fun s1 s2 hs => Or.inl ⟨a1, a2, s1, s2, rfl, rfl, h, hs⟩

theorem VM.related_fail {α : Type} (R : α → α → Prop) (e : Fault) :
    VM.Related R (VM.fail e) (VM.fail e) :=
  fun s1 s2 _ => Or.inr (Or.inl ⟨e, s1, s2, rfl, rfl⟩)

theorem VM.related_bind {α β : Type} (R : α → α → Prop) (Q : β → β → Prop) (m1 m2 : VM α)
    (f1 f2 : α → VM β) (hm : VM.Related R m1 m2)
    (hf : ∀ a1 a2, R a1 a2 → VM.Related Q (f1 a1) (f2 a2)) :
    VM.Related Q (m1 >>= f1) (m2 >>= f2) := by
  intro s1 s2 hs
  rcases hm s1 s2 hs with ⟨a1, a2, t1, t2, h1, h2, hR, ht⟩ | ⟨e, t1, t2, h1, h2⟩ | h1 | h2
  · simp only [VM.bind_apply, h1, h2]
    exact hf a1 a2 hR t1 t2 ht
  · simp only [VM.bind_apply, h1, h2]
    exact Or.inr (Or.inl ⟨e, t1, t2, rfl, rfl⟩)
  · refine Or.inr (Or.inr (Or.inl ?_))
    rcases hr : m1 s1 with ⟨r, t1⟩
    rw [hr] at h1
    simp only at h1
    subst h1
    simp only [VM.bind_apply, hr]
  · refine Or.inr (Or.inr (Or.inr ?_))
    rcases hr : m2 s2 with ⟨r, t2⟩
    rw [hr] at h2
    simp only at h2
    subst h2
    simp only [VM.bind_apply, hr]

theorem ValueStack.related_push (v1 v2 : Value) (h : v1.type = v2.type) :
    VM.Related (fun _ _ => True) (ValueStack.push v1) (ValueStack.push v2) :=
  fun s1 s2 hs => Or.inl ⟨(), (), s1 ++ [v1], s2 ++ [v2], rfl, rfl, trivial, shape_concat s1 s2 v1 v2 hs h⟩

theorem ValueStack.related_pop :
    VM.Related (fun v1 v2 => v1.type = v2.type) ValueStack.pop ValueStack.pop := by
  intro s1 s2 hs
  rcases shape_cases s1 s2 hs with ⟨rfl, rfl⟩ | ⟨t1, v1, t2, v2, rfl, rfl, ht, hv⟩
  · exact Or.inr (Or.inl ⟨Fault.StackUnderflow, [], [], rfl, rfl⟩)
  · exact Or.inl ⟨v1, v2, t1, t2, ValueStack.pop_concat t1 v1, ValueStack.pop_concat t2 v2, hv, ht⟩

theorem ValueStack.related_dup :
    VM.Related (fun _ _ => True) ValueStack.dup ValueStack.dup := by
  intro s1 s2 hs
  rcases shape_cases s1 s2 hs with ⟨rfl, rfl⟩ | ⟨t1, v1, t2, v2, rfl, rfl, ht, hv⟩
  · exact Or.inr (Or.inl ⟨Fault.StackUnderflow, [], [], rfl, rfl⟩)
  · refine Or.inl ⟨(), (), (t1 ++ [v1]) ++ [v1], (t2 ++ [v2]) ++ [v2], ?_, ?_, trivial, ?_⟩
    · rw [ValueStack.dup_concat]; simp
    · rw [ValueStack.dup_concat]; simp
    · exact shape_concat _ _ v1 v2 (shape_concat t1 t2 v1 v2 ht hv) hv

theorem ValueStack.related_drop :
    VM.Related (fun _ _ => True) ValueStack.drop ValueStack.drop := by
  intro s1 s2 hs
  rcases shape_cases s1 s2 hs with ⟨rfl, rfl⟩ | ⟨t1, v1, t2, v2, rfl, rfl, ht, hv⟩
  · exact Or.inr (Or.inl ⟨Fault.StackUnderflow, [], [], rfl, rfl⟩)
  · exact Or.inl ⟨(), (), t1, t2, ValueStack.drop_concat t1 v1, ValueStack.drop_concat t2 v2,
      trivial, ht⟩

theorem related_compare (v1 w1 v2 w2 : Value) (h1 : v1.type = w1.type) (h2 : v2.type = w2.type) :
    VM.Related (fun (_ _ : Int) => True) (VM.ofExcept (compare v2 v1))
      (VM.ofExcept (compare w2 w1)) := by
  cases v1 <;> cases w1 <;> simp [Value.type] at h1 <;>
    cases v2 <;> cases w2 <;> simp [Value.type] at h2 <;>
    first
    | exact VM.related_pure _ _ _ trivial
    | exact VM.related_fail _ Fault.TypeMismatch

theorem related_getString (v w : Value) (h : v.type = w.type) :
    VM.Related (fun (_ _ : String) => True) (VM.ofExcept v.getString) (VM.ofExcept w.getString) := by
  cases v <;> cases w <;> simp [Value.type] at h <;>
    first
    | exact VM.related_pure _ _ _ trivial
    | exact VM.related_fail _ Fault.TypeMismatch

theorem related_binComp : VM.Related (fun (_ _ : Int) => True) Action.binComp Action.binComp := by
  unfold Action.binComp
  refine VM.related_bind _ _ _ _ _ _ ValueStack.related_pop ?_
  intro v1 w1 h1
  refine VM.related_bind _ _ _ _ _ _ ValueStack.related_pop ?_
  intro v2 w2 h2
  exact related_compare v1 w1 v2 w2 h1 h2

theorem related_compile (re : RegexCompiler) (p1 p2 : String) :
    VM.Related (fun (_ _ : Regex) => True)
      (match re p1 perl_icase with
        | some rx => pure rx
        | none => VM.fail Fault.InvalidPattern)
      (match re p2 perl_icase with
        | some rx => pure rx
        | none => VM.fail Fault.InvalidPattern) := by
  intro s1 s2 hs
  cases h1 : re p1 perl_icase with
  | none => exact Or.inr (Or.inr (Or.inl rfl))
  | some r1 =>
    cases h2 : re p2 perl_icase with
    | none => exact Or.inr (Or.inr (Or.inr rfl))
    | some r2 => exact Or.inl ⟨r1, r2, s1, s2, rfl, rfl, trivial, hs⟩

theorem related_push_ofBool (b1 b2 : Bool) :
    VM.Related (fun _ _ => True) (ValueStack.push (Value.ofBool b1))
      (ValueStack.push (Value.ofBool b2)) :=
  ValueStack.related_push _ _ rfl

theorem related_push_flag (b1 b2 : Bool) :
    VM.Related (fun _ _ => True)
      (ValueStack.push (if b1 then Value.INT 1 else Value.INT 0))
      (ValueStack.push (if b2 then Value.INT 1 else Value.INT 0)) := by
  apply ValueStack.related_push
  cases b1 <;> cases b2 <;> rfl

/-- One opcode, bound to one atom and to another, executed on stacks of the same
shape: the two executions stay in lockstep. -/
theorem related_execute (re : RegexCompiler) (a : Action) (at1 at2 : Atom) :
    VM.Related (fun _ _ => True) ((a.setAtom (some at1)).execute re)
      ((a.setAtom (some at2)).execute re) := by
  obtain ⟨at0, nm, k⟩ := a
  cases k with
  | pushString val => exact ValueStack.related_push _ _ rfl
  | pushInt val => exact ValueStack.related_push _ _ rfl
  | pushFloat val => exact ValueStack.related_push _ _ rfl
  | drop => exact ValueStack.related_drop
  | dup => exact ValueStack.related_dup
  | equals =>
    exact VM.related_bind _ _ _ _ _ _ related_binComp (fun _ _ _ => related_push_ofBool _ _)
  | lessThan =>
    exact VM.related_bind _ _ _ _ _ _ related_binComp (fun _ _ _ => related_push_ofBool _ _)
  | lessThanEquals =>
    exact VM.related_bind _ _ _ _ _ _ related_binComp (fun _ _ _ => related_push_ofBool _ _)
  | greaterThan =>
    exact VM.related_bind _ _ _ _ _ _ related_binComp (fun _ _ _ => related_push_ofBool _ _)
  | greaterThanEquals =>
    exact VM.related_bind _ _ _ _ _ _ related_binComp (fun _ _ _ => related_push_ofBool _ _)
  | matchRegex regexp what =>
    refine VM.related_bind _ _ _ _ _ _ ValueStack.related_pop ?_
    intro v w hv
    refine VM.related_bind _ _ _ _ _ _ (related_getString v w hv) ?_
    intro x y _
    exact related_push_flag _ _
  | matchStringAsRegex =>
    refine VM.related_bind _ _ _ _ _ _ ValueStack.related_pop ?_
    intro v w hv
    refine VM.related_bind _ _ _ _ _ _ (related_getString v w hv) ?_
    intro p1 p2 _
    refine VM.related_bind _ _ _ _ _ _ (related_compile re p1 p2) ?_
    intro r1 r2 _
    refine VM.related_bind _ _ _ _ _ _ ValueStack.related_pop ?_
    intro u1 u2 hu
    refine VM.related_bind _ _ _ _ _ _ (related_getString u1 u2 hu) ?_
    intro x y _
    exact related_push_flag _ _
  | pushAtomName =>
    exact VM.related_bind _ _ _ _ _ _ (VM.related_pure (fun _ _ => True) at1 at2 trivial)
      (fun _ _ _ => ValueStack.related_push _ _ rfl)
  | pushAtomId =>
    exact VM.related_bind _ _ _ _ _ _ (VM.related_pure (fun _ _ => True) at1 at2 trivial)
      (fun _ _ _ => ValueStack.related_push _ _ rfl)
  | pushAtomResname =>
    exact VM.related_bind _ _ _ _ _ _ (VM.related_pure (fun _ _ => True) at1 at2 trivial)
      (fun _ _ _ => ValueStack.related_push _ _ rfl)
  | pushAtomResid =>
    exact VM.related_bind _ _ _ _ _ _ (VM.related_pure (fun _ _ => True) at1 at2 trivial)
      (fun _ _ _ => ValueStack.related_push _ _ rfl)
  | pushAtomSegid =>
    exact VM.related_bind _ _ _ _ _ _ (VM.related_pure (fun _ _ => True) at1 at2 trivial)
      (fun _ _ _ => ValueStack.related_push _ _ rfl)
  | logicalAnd =>
    refine VM.related_bind _ _ _ _ _ _ ValueStack.related_pop ?_
    intro v2 w2 h2
    refine VM.related_bind _ _ _ _ _ _ ValueStack.related_pop ?_
    intro v1 w1 h1
    cases v1 <;> cases w1 <;> simp [Value.type] at h1 <;>
      cases v2 <;> cases w2 <;> simp [Value.type] at h2 <;>
      first
      | exact related_push_ofBool _ _
      | exact VM.related_fail _ Fault.TypeMismatch
  | logicalOr =>
    refine VM.related_bind _ _ _ _ _ _ ValueStack.related_pop ?_
    intro v1 w1 h1
    refine VM.related_bind _ _ _ _ _ _ ValueStack.related_pop ?_
    intro v2 w2 h2
    cases v1 <;> cases w1 <;> simp [Value.type] at h1 <;>
      cases v2 <;> cases w2 <;> simp [Value.type] at h2 <;>
      first
      | exact related_push_ofBool _ _
      | exact VM.related_fail _ Fault.TypeMismatch
  | logicalNot =>
    refine VM.related_bind _ _ _ _ _ _ ValueStack.related_pop ?_
    intro v1 w1 h1
    cases v1 <;> cases w1 <;> simp [Value.type] at h1 <;>
      first
      | exact related_push_ofBool _ _
      | exact VM.related_fail _ Fault.TypeMismatch

theorem executeAll_cons_bind (re : RegexCompiler) (a : Action) (rest : List Action) :
    executeAll re (a :: rest) = (a.execute re >>= fun _ => executeAll re rest) := by
  funext s
  simp only [executeAll]

/-- A whole opcode sequence, bound to one atom and to another, stays in
lockstep. -/
theorem related_executeAll (re : RegexCompiler) (prog : List Action) (at1 at2 : Atom) :
    VM.Related (fun _ _ => True) (executeAll re (bindAtom (some at1) prog))
      (executeAll re (bindAtom (some at2) prog)) := by
  induction prog with
  | nil => exact VM.related_pure _ _ _ trivial
  | cons a rest ih =>
    rw [bindAtom_cons, bindAtom_cons, executeAll_cons_bind, executeAll_cons_bind]
    exact VM.related_bind _ _ _ _ _ _ (related_execute re a at1 at2) (fun _ _ _ => ih)

/-- Counterexample to C16 as stated: the program `[pushAtomName, pushAtomSegid,
matchStringAsRegex]` takes its pattern from the segment identifier of the atom.
With an atom whose segment identifier is `(`, a malformed pattern, it faults with
`InvalidPattern`; with an atom whose segment identifier is `PROT` it does not fault
and leaves Integer 0. -/
theorem fault_depends_on_atom_counterexample :
    executeAll plainRegex (bindAtom (some (Atom.mk "CA" 2 "ALA" 1 "("))
        [pushAtomName, pushAtomSegid, matchStringAsRegex]) []
      = (Except.error Fault.InvalidPattern, [Value.STRING "CA"]) ∧
    executeAll plainRegex (bindAtom (some (Atom.mk "CA" 2 "ALA" 1 "PROT"))
        [pushAtomName, pushAtomSegid, matchStringAsRegex]) []
      = (Except.ok (), [Value.INT 0]) :=
  ⟨rfl, rfl⟩

/-- C16, amended: for every opcode sequence and every two atoms, if executing the
sequence on the empty stack with the first atom bound produces a fault other than
`InvalidPattern`, then executing it with the second atom bound produces a fault
too: the same fault, or `InvalidPattern`. -/
theorem fault_other_than_invalidPattern_on_every_atom (re : RegexCompiler) (prog : List Action)
    (at1 at2 : Atom) (e : Fault)
    (h : (executeAll re (bindAtom (some at1) prog) []).1 = Except.error e)
    (he : e ≠ Fault.InvalidPattern) :
    (executeAll re (bindAtom (some at2) prog) []).1 = Except.error e ∨
    (executeAll re (bindAtom (some at2) prog) []).1 = Except.error Fault.InvalidPattern := by
  rcases related_executeAll re prog at1 at2 [] [] rfl with
    ⟨a1, a2, s1, s2, h1, _, _, _⟩ | ⟨e0, s1, s2, h1, h2⟩ | h1 | h2
  · rw [h1] at h
    simp at h
  · rw [h1] at h
    simp only [Except.error.injEq] at h
    subst h
    left
    rw [h2]
  · rw [h1] at h
    simp only [Except.error.injEq] at h
    exact absurd h.symm he
  · right
    exact h2

/-- Witness of C16, amended: `[pushAtomName, logicalNot]` faults with
`TypeMismatch` on one atom, hence on the other. -/
theorem fault_other_than_invalidPattern_on_every_atom_witness :
    (executeAll plainRegex (bindAtom (some (Atom.mk "CA" 2 "ALA" 1 "PROT"))
        [pushAtomName, logicalNot]) []).1 = Except.error Fault.TypeMismatch ∧
    Fault.TypeMismatch ≠ Fault.InvalidPattern ∧
    ((executeAll plainRegex (bindAtom (some (Atom.mk "N" 1 "GLY" 7 "("))
        [pushAtomName, logicalNot]) []).1 = Except.error Fault.TypeMismatch ∨
     (executeAll plainRegex (bindAtom (some (Atom.mk "N" 1 "GLY" 7 "("))
        [pushAtomName, logicalNot]) []).1 = Except.error Fault.InvalidPattern) :=
  ⟨rfl, by decide,
    fault_other_than_invalidPattern_on_every_atom plainRegex [pushAtomName, logicalNot]
      (Atom.mk "CA" 2 "ALA" 1 "PROT") (Atom.mk "N" 1 "GLY" 7 "(") Fault.TypeMismatch rfl
      (by decide)⟩

/-! ## The atom binding is kept -/

/-- Counterexample to C17 as stated: `pushAtomName` is bound once to an atom
named "CA" and executed twice without a new bind.  The second execution does not
fail with `UnboundAtom`: the opcode still holds the atom and pushes the name
again. -/
theorem binding_kept_counterexample :
    (pushAtomName.setAtom (some (Atom.mk "CA" 2 "ALA" 1 "PROT"))).execute plainRegex []
      = (Except.ok (), [Value.STRING "CA"]) ∧
    (pushAtomName.setAtom (some (Atom.mk "CA" 2 "ALA" 1 "PROT"))).atom
      = some (Atom.mk "CA" 2 "ALA" 1 "PROT") ∧
    (pushAtomName.setAtom (some (Atom.mk "CA" 2 "ALA" 1 "PROT"))).execute plainRegex
        [Value.STRING "CA"]
      = (Except.ok (), [Value.STRING "CA", Value.STRING "CA"]) ∧
    ((pushAtomName.setAtom (some (Atom.mk "CA" 2 "ALA" 1 "PROT"))).execute plainRegex
        [Value.STRING "CA"]).1 ≠ Except.error Fault.UnboundAtom :=
  ⟨rfl, rfl, rfl, by simp [show (pushAtomName.setAtom (some (Atom.mk "CA" 2 "ALA" 1 "PROT"))).execute
      plainRegex [Value.STRING "CA"] = (Except.ok (), [Value.STRING "CA", Value.STRING "CA"]) from rfl]⟩

/-- C17, amended: the atom an opcode holds is the one the last `setAtom` stored,
and `execute` does not clear it.  After an atom-property opcode has been bound to
an atom and executed, executing it a second time without a new bind succeeds and
pushes the property of the same atom again; it fails with `UnboundAtom` once
`setAtom` has stored the null atom. -/
theorem binding_kept_until_next_setAtom (re : RegexCompiler) (at0 : Atom) (pa : pAtom)
    (a : Action) (s : ValueStack) :
    (a.setAtom pa).atom = pa ∧
    executeAll re [pushAtomName.setAtom (some at0), pushAtomName.setAtom (some at0)] s
      = (Except.ok (), s ++ [Value.STRING at0.name, Value.STRING at0.name]) ∧
    executeAll re [pushAtomId.setAtom (some at0), pushAtomId.setAtom (some at0)] s
      = (Except.ok (), s ++ [Value.INT at0.id, Value.INT at0.id]) ∧
    executeAll re [pushAtomResname.setAtom (some at0), pushAtomResname.setAtom (some at0)] s
      = (Except.ok (), s ++ [Value.STRING at0.resname, Value.STRING at0.resname]) ∧
    executeAll re [pushAtomResid.setAtom (some at0), pushAtomResid.setAtom (some at0)] s
      = (Except.ok (), s ++ [Value.INT at0.resid, Value.INT at0.resid]) ∧
    executeAll re [pushAtomSegid.setAtom (some at0), pushAtomSegid.setAtom (some at0)] s
      = (Except.ok (), s ++ [Value.STRING at0.segid, Value.STRING at0.segid]) ∧
    executeAll re [pushAtomName.setAtom (some at0), (pushAtomName.setAtom (some at0)).setAtom none] s
      = (Except.error Fault.UnboundAtom, s ++ [Value.STRING at0.name]) := by
  have hb := pushAtom_execute_bound re at0
  have hu := pushAtom_execute_unbound re
  refine ⟨rfl, ?_, ?_, ?_, ?_, ?_, ?_⟩
  · simp only [executeAll_cons, executeAll_nil, (hb _).1, List.append_assoc, List.singleton_append]
  · simp only [executeAll_cons, executeAll_nil, (hb _).2.1, List.append_assoc,
      List.singleton_append]
  · simp only [executeAll_cons, executeAll_nil, (hb _).2.2.1, List.append_assoc,
      List.singleton_append]
  · simp only [executeAll_cons, executeAll_nil, (hb _).2.2.2.1, List.append_assoc,
      List.singleton_append]
  · simp only [executeAll_cons, executeAll_nil, (hb _).2.2.2.2, List.append_assoc,
      List.singleton_append]
  · have h2 : (pushAtomName.setAtom (some at0)).setAtom none = pushAtomName.setAtom none := rfl
    simp only [executeAll_cons, (hb _).1, h2, (hu _).1]

/-! ## Comparison across shapes -/

theorem compare_text_numeric (a b : Value)
    (h : (a.type = ValueType.STRING ∧ b.type ≠ ValueType.STRING) ∨
         (a.type ≠ ValueType.STRING ∧ b.type = ValueType.STRING)) :
    compare a b = Except.error Fault.TypeMismatch := by
  cases a <;> cases b <;> simp [Value.type] at h <;> rfl

/-- C18: a Text-versus-numeric comparison is rejected, not coerced.  On every
stack `s ++ [a, b]` in which exactly one of `a`, `b` is Text (the other being
Integer or Float), each relational opcode fails with `TypeMismatch` and pushes no
result: the two operands are gone and the stack is `s`. -/
theorem text_versus_numeric_rejected (re : RegexCompiler) (pa : pAtom) (s : ValueStack)
    (a b : Value)
    (h : (a.type = ValueType.STRING ∧ b.type ≠ ValueType.STRING) ∨
         (a.type ≠ ValueType.STRING ∧ b.type = ValueType.STRING)) :
    (equals.setAtom pa).execute re (s ++ [a, b]) = (Except.error Fault.TypeMismatch, s) ∧
    (lessThan.setAtom pa).execute re (s ++ [a, b]) = (Except.error Fault.TypeMismatch, s) ∧
    (lessThanEquals.setAtom pa).execute re (s ++ [a, b]) = (Except.error Fault.TypeMismatch, s) ∧
    (greaterThan.setAtom pa).execute re (s ++ [a, b]) = (Except.error Fault.TypeMismatch, s) ∧
    (greaterThanEquals.setAtom pa).execute re (s ++ [a, b])
      = (Except.error Fault.TypeMismatch, s) := by
  apply relational_execute_of_binComp_error
  rw [Action.binComp_pair, compare_text_numeric a b h]

/-- Witness of C18: the text "ALA" below Integer 3. -/
theorem text_versus_numeric_rejected_witness :
    (((Value.STRING "ALA").type = ValueType.STRING ∧ (Value.INT 3).type ≠ ValueType.STRING) ∨
      ((Value.STRING "ALA").type ≠ ValueType.STRING ∧ (Value.INT 3).type = ValueType.STRING)) ∧
    (equals.setAtom none).execute plainRegex ([Value.INT 9] ++ [Value.STRING "ALA", Value.INT 3])
      = (Except.error Fault.TypeMismatch, [Value.INT 9]) :=
  have h : ((Value.STRING "ALA").type = ValueType.STRING ∧ (Value.INT 3).type ≠ ValueType.STRING) ∨
      ((Value.STRING "ALA").type ≠ ValueType.STRING ∧ (Value.INT 3).type = ValueType.STRING) :=
    Or.inl ⟨rfl, by decide⟩
  ⟨h, (text_versus_numeric_rejected plainRegex none [Value.INT 9] (Value.STRING "ALA")
    (Value.INT 3) h).1⟩

theorem threeWay_self (q : ℚ) : threeWay q q = 0 := by
  simp [threeWay]

/-- C19: Integer and Float compare under widening.  For every integer `n`,
`equals` executed on `s ++ [Integer n, Float n]` and on `s ++ [Float n, Integer n]`
succeeds and pushes Integer 1; in particular Integer 3 and Float 3.0 compare
equal. -/
theorem integer_float_equal_under_widening (re : RegexCompiler) (pa : pAtom) (s : ValueStack)
    (n : Int) :
    (equals.setAtom pa).execute re (s ++ [Value.INT n, Value.FLOAT (n : ℚ)])
      = (Except.ok (), s ++ [Value.INT 1]) ∧
    (equals.setAtom pa).execute re (s ++ [Value.FLOAT (n : ℚ), Value.INT n])
      = (Except.ok (), s ++ [Value.INT 1]) ∧
    (equals.setAtom pa).execute re (s ++ [Value.INT 3, Value.FLOAT 3])
      = (Except.ok (), s ++ [Value.INT 1]) := by
  have h1 : compare (Value.INT n) (Value.FLOAT (n : ℚ)) = Except.ok 0 := by
    simp only [compare, threeWay_self]
  have h2 : compare (Value.FLOAT (n : ℚ)) (Value.INT n) = Except.ok 0 := by
    simp only [compare, threeWay_self]
  have h3 : compare (Value.INT 3) (Value.FLOAT 3) = Except.ok 0 := by
    have := threeWay_self (3 : ℚ)
    simp only [compare]
    norm_num
    exact this
  refine ⟨?_, ?_, ?_⟩
  · rw [equals_execute_of_binComp re pa _ s 0 (Action.binComp_of_compare s _ _ 0 h1)]
    rfl
  · rw [equals_execute_of_binComp re pa _ s 0 (Action.binComp_of_compare s _ _ 0 h2)]
    rfl
  · rw [equals_execute_of_binComp re pa _ s 0 (Action.binComp_of_compare s _ _ 0 h3)]
    rfl

/-- C20: text comparison is byte-wise lexicographic and case-sensitive.  For all
texts `a` and `b`, `lessThan` on `s ++ [Text a, Text b]` pushes Integer 1 exactly
when the bytes of `a` precede the bytes of `b` in lexicographic order, and Integer
0 otherwise; `equals` pushes Integer 1 exactly when `a` and `b` are the same byte
sequence, which is the case exactly when they are the same text.  So `lessThan` on
`["ALA", "GLY"]` pushes Integer 1 and `equals` on `["ALA", "ala"]` pushes
Integer 0. -/
theorem text_comparison_bytewise (re : RegexCompiler) (pa : pAtom) (s : ValueStack)
    (a b : String) :
    (lessThan.setAtom pa).execute re (s ++ [Value.STRING a, Value.STRING b])
      = (Except.ok (), s ++ [if List.Lex (fun x y => x < y) (textBytes a) (textBytes b)
          then Value.INT 1 else Value.INT 0]) ∧
    (equals.setAtom pa).execute re (s ++ [Value.STRING a, Value.STRING b])
      = (Except.ok (), s ++ [if textBytes a = textBytes b then Value.INT 1 else Value.INT 0]) ∧
    (textBytes a = textBytes b ↔ a = b) ∧
    (lessThan.setAtom pa).execute re (s ++ [Value.STRING "ALA", Value.STRING "GLY"])
      = (Except.ok (), s ++ [Value.INT 1]) ∧
    (equals.setAtom pa).execute re (s ++ [Value.STRING "ALA", Value.STRING "ala"])
      = (Except.ok (), s ++ [Value.INT 0]) := by
  refine ⟨?_, ?_, ⟨textBytes_injective a b, fun h => by rw [h]⟩, ?_, ?_⟩
  · rw [lessThan_execute_of_binComp re pa _ s _ (Action.binComp_text s a b)]
    simp only [compareBytes_neg_iff]
  · rw [equals_execute_of_binComp re pa _ s _ (Action.binComp_text s a b)]
    simp only [compareBytes_eq_zero_iff]
  · rw [lessThan_execute_of_binComp re pa _ s _ (Action.binComp_text s "ALA" "GLY")]
    rfl
  · rw [equals_execute_of_binComp re pa _ s _ (Action.binComp_text s "ALA" "ala")]
    rfl

/-! ## Descriptions -/

/-- Counterexample to C21 as stated: the description of the payload-free opcode
`equals` is the operator symbol `==`, which is not the name of its kind,
`equals`; likewise `logicalAnd` describes itself as `&&`. -/
theorem name_not_kind_name_counterexample :
    equals.name (fun _ => "") = "==" ∧
    equals.kind.hasPayload = false ∧
    equals.name (fun _ => "") ≠ equals.kind.className ∧
    logicalAnd.name (fun _ => "") = "&&" ∧
    logicalAnd.name (fun _ => "") ≠ logicalAnd.kind.className := by
  refine ⟨rfl, rfl, ?_, rfl, ?_⟩ <;> decide

/-- C21, amended: the description of an opcode is the command name its
constructor hands to `Action`, followed for a literal-carrying opcode by the
payload in parentheses.  `pushString` built from "ALA" describes itself as
`pushString("ALA")`, `pushInt` and `pushFloat` as their name and the rendered
number in parentheses, `matchRegex` built from the pattern `p` as `matchRegex(p)`.
A payload-free opcode describes itself as its bare command name: the class name
for `drop`, `dup`, `matchStringAsRegex` and the five atom-property opcodes, the
operator symbol `==`, `<`, `<=`, `>`, `>=`, `&&`, `||`, `!` for the relational and
logical opcodes.  The description does not depend on the bound atom. -/
theorem name_renders_command_and_payload (num : Value → String) (re : RegexCompiler)
    (p : String) (n : Int) (f : ℚ) (rx : Regex) (a : Action) (pa : pAtom) :
    (pushString "ALA").name num = "pushString(" ++ dquote ++ "ALA" ++ dquote ++ ")" ∧
    (pushString p).name num = "pushString(" ++ dquote ++ p ++ dquote ++ ")" ∧
    (pushInt n).name num = "pushInt(" ++ num (Value.INT n) ++ ")" ∧
    (pushFloat f).name num = "pushFloat(" ++ num (Value.FLOAT f) ++ ")" ∧
    (matchRegex re p).map (Action.name num)
      = (matchRegex re p).map (fun _ => "matchRegex(" ++ p ++ ")") ∧
    (Action.mk0 "matchRegex" (Kind.matchRegex rx p)).name num = "matchRegex(" ++ p ++ ")" ∧
    drop.name num = "drop" ∧ dup.name num = "dup" ∧
    matchStringAsRegex.name num = "matchStringAsRegex" ∧
    pushAtomName.name num = "pushAtomName" ∧ pushAtomId.name num = "pushAtomId" ∧
    pushAtomResname.name num = "pushAtomResname" ∧ pushAtomResid.name num = "pushAtomResid" ∧
    pushAtomSegid.name num = "pushAtomSegid" ∧
    equals.name num = "==" ∧ lessThan.name num = "<" ∧ lessThanEquals.name num = "<=" ∧
    greaterThan.name num = ">" ∧ greaterThanEquals.name num = ">=" ∧
    logicalAnd.name num = "&&" ∧ logicalOr.name num = "||" ∧ logicalNot.name num = "!" ∧
    (a.setAtom pa).name num = a.name num := by
  refine ⟨rfl, rfl, rfl, rfl, ?_, rfl, rfl, rfl, rfl, rfl, rfl, rfl, rfl, rfl, rfl, rfl, rfl, rfl,
    rfl, rfl, rfl, rfl, rfl⟩
  unfold matchRegex
  cases re p perl_icase <;> rfl

/-! ## The order of pops and compilation in `matchStringAsRegex` -/

theorem matchStringAsRegex_execute_single (re : RegexCompiler) (pa : pAtom) (x : Value) :
    (matchStringAsRegex.setAtom pa).execute re [x] =
      match x with
      | Value.STRING t =>
          match re t perl_icase with
          | some _ => (Except.error Fault.StackUnderflow, [])
          | none => (Except.error Fault.InvalidPattern, [])
      | _ => (Except.error Fault.TypeMismatch, []) := by
  have hp : ValueStack.pop [x] = (Except.ok x, []) := rfl
  simp only [Action.execute, matchStringAsRegex, Action.setAtom, Action.mk0, VM.bind_apply, hp]
  cases x with
  | INT i => rfl
  | FLOAT f => rfl
  | STRING t =>
    simp only [Value.getString, VM.ofExcept_ok]
    cases re t perl_icase <;> rfl

/-- Counterexample to C26 as stated: on the stack that holds exactly the text `(`,
which is not a valid pattern, `matchStringAsRegex` fails with `InvalidPattern`, not
with `StackUnderflow`: the pattern is compiled before the second pop. -/
theorem matchStringAsRegex_single_invalid_counterexample :
    plainRegex "(" perl_icase = none ∧
    (matchStringAsRegex.setAtom none).execute plainRegex [Value.STRING "("]
      = (Except.error Fault.InvalidPattern, []) ∧
    ((matchStringAsRegex.setAtom none).execute plainRegex [Value.STRING "("]).1
      ≠ Except.error Fault.StackUnderflow := by
  have h : (matchStringAsRegex.setAtom none).execute plainRegex [Value.STRING "("]
      = (Except.error Fault.InvalidPattern, []) := rfl
  refine ⟨rfl, h, ?_⟩
  rw [h]
  simp

/-- C26, amended: `matchStringAsRegex` pops the pattern, compiles it, and only then
pops the subject.  Executed on a stack that holds exactly one Text value, it fails
with `StackUnderflow` when that text compiles as a pattern and with
`InvalidPattern` when it does not; in both cases the one value has been popped. -/
theorem matchStringAsRegex_single_text (re : RegexCompiler) (pa : pAtom) (t : String) :
    (matchStringAsRegex.setAtom pa).execute re [Value.STRING t] =
      match re t perl_icase with
      | some _ => (Except.error Fault.StackUnderflow, [])
      | none => (Except.error Fault.InvalidPattern, []) :=
  matchStringAsRegex_execute_single re pa (Value.STRING t)

/-! ## Atom-property opcodes without an atom -/

/-- C30: an atom-property opcode that has no atom bound fails with `UnboundAtom`
and leaves the operand stack exactly as it was: `hasAtom` throws before anything
is pushed. -/
theorem pushAtom_unbound_leaves_stack (re : RegexCompiler) (a : Action) (s : ValueStack)
    (hk : a.kind.isAtomProperty = true) (ha : a.atom = none) :
    a.execute re s = (Except.error Fault.UnboundAtom, s) := by
  obtain ⟨at0, nm, k⟩ := a
  simp only at ha
  subst ha
  cases k <;> first | rfl | simp [Kind.isAtomProperty] at hk

/-- Witness of C30: a freshly constructed `pushAtomResid` on a stack of two
values. -/
theorem pushAtom_unbound_leaves_stack_witness :
    pushAtomResid.kind.isAtomProperty = true ∧ pushAtomResid.atom = none ∧
    pushAtomResid.execute plainRegex [Value.INT 4, Value.STRING "CA"]
      = (Except.error Fault.UnboundAtom, [Value.INT 4, Value.STRING "CA"]) :=
  ⟨rfl, rfl, pushAtom_unbound_leaves_stack plainRegex pushAtomResid
    [Value.INT 4, Value.STRING "CA"] rfl rfl⟩

/-! ## Stack framing -/

theorem stack_cases (s : ValueStack) :
    s = [] ∨ (∃ x, s = [x]) ∨ ∃ rest x y, s = rest ++ [x, y] := by
  rcases List.eq_nil_or_concat s with rfl | ⟨s1, y, rfl⟩
  · exact Or.inl rfl
  · rcases List.eq_nil_or_concat s1 with rfl | ⟨rest, x, rfl⟩
    · exact Or.inr (Or.inl ⟨y, rfl⟩)
    · exact Or.inr (Or.inr ⟨rest, x, y, by simp⟩)

/-- A successful comparison step takes two values off and puts one on. -/
theorem frame_binComp_push (f : Int → Value) (s s1 : ValueStack)
    (h : (Action.binComp >>= fun c => ValueStack.push (f c)) s = (Except.ok (), s1)) :
    ∃ rest x y v, s = rest ++ [x, y] ∧ s1 = rest ++ [v] := by
  rcases stack_cases s with rfl | ⟨x, rfl⟩ | ⟨rest, x, y, rfl⟩
  · simp [VM.bind_apply, Action.binComp_nil] at h
  · simp [VM.bind_apply, Action.binComp_single] at h
  · rw [VM.bind_apply, Action.binComp_pair] at h
    cases hc : compare x y with
    | error e => rw [hc] at h; simp at h
    | ok c =>
      rw [hc] at h
      simp only [ValueStack.push_apply, Prod.mk.injEq, true_and] at h
      exact ⟨rest, x, y, f c, rfl, h.symm⟩

theorem frame_logicalAnd (re : RegexCompiler) (pa : pAtom) (s s1 : ValueStack)
    (h : (logicalAnd.setAtom pa).execute re s = (Except.ok (), s1)) :
    ∃ rest x y v, s = rest ++ [x, y] ∧ s1 = rest ++ [v] := by
  rcases stack_cases s with rfl | ⟨x, rfl⟩ | ⟨rest, x, y, rfl⟩
  · have h0 : (logicalAnd.setAtom pa).execute re [] = (Except.error Fault.StackUnderflow, []) := rfl
    rw [h0] at h; simp at h
  · have h0 : (logicalAnd.setAtom pa).execute re [x] = (Except.error Fault.StackUnderflow, []) :=
      rfl
    rw [h0] at h; simp at h
  · rw [logicalAnd_execute_pair] at h
    cases x <;> cases y <;> simp at h
    exact ⟨rest, _, _, _, rfl, h.symm⟩

theorem frame_logicalOr (re : RegexCompiler) (pa : pAtom) (s s1 : ValueStack)
    (h : (logicalOr.setAtom pa).execute re s = (Except.ok (), s1)) :
    ∃ rest x y v, s = rest ++ [x, y] ∧ s1 = rest ++ [v] := by
  rcases stack_cases s with rfl | ⟨x, rfl⟩ | ⟨rest, x, y, rfl⟩
  · have h0 : (logicalOr.setAtom pa).execute re [] = (Except.error Fault.StackUnderflow, []) := rfl
    rw [h0] at h; simp at h
  · have h0 : (logicalOr.setAtom pa).execute re [x] = (Except.error Fault.StackUnderflow, []) :=
      rfl
    rw [h0] at h; simp at h
  · rw [logicalOr_execute_pair] at h
    cases x <;> cases y <;> simp at h
    exact ⟨rest, _, _, _, rfl, h.symm⟩

theorem frame_logicalNot (re : RegexCompiler) (pa : pAtom) (s s1 : ValueStack)
    (h : (logicalNot.setAtom pa).execute re s = (Except.ok (), s1)) :
    ∃ rest x v, s = rest ++ [x] ∧ s1 = rest ++ [v] := by
  rcases List.eq_nil_or_concat s with rfl | ⟨rest, x, rfl⟩
  · have h0 : (logicalNot.setAtom pa).execute re [] = (Except.error Fault.StackUnderflow, []) := rfl
    rw [h0] at h; simp at h
  · rw [List.concat_eq_append, logicalNot_execute_top] at h
    cases x <;> simp at h
    exact ⟨rest, _, _, List.concat_eq_append _ _, h.symm⟩

theorem frame_matchRegex (re : RegexCompiler) (pa : pAtom) (regexp : Regex) (what : String)
    (s s1 : ValueStack)
    (h : ((Action.mk0 "matchRegex" (Kind.matchRegex regexp what)).setAtom pa).execute re s
      = (Except.ok (), s1)) :
    ∃ rest x v, s = rest ++ [x] ∧ s1 = rest ++ [v] := by
  rcases List.eq_nil_or_concat s with rfl | ⟨rest, x, rfl⟩
  · have h0 : ((Action.mk0 "matchRegex" (Kind.matchRegex regexp what)).setAtom pa).execute re []
        = (Except.error Fault.StackUnderflow, []) := rfl
    rw [h0] at h; simp at h
  · rw [List.concat_eq_append, matchRegex_execute_top] at h
    cases x <;> simp at h
    exact ⟨rest, _, _, List.concat_eq_append _ _, h.symm⟩

theorem matchStringAsRegex_execute_general (re : RegexCompiler) (pa : pAtom) (s : ValueStack)
    (x y : Value) :
    (matchStringAsRegex.setAtom pa).execute re (s ++ [x, y]) =
      match y with
      | Value.STRING pattern =>
          match re pattern perl_icase with
          | some rx =>
              match x with
              | Value.STRING subject =>
                  (Except.ok (),
                    s ++ [if regex_search subject rx then Value.INT 1 else Value.INT 0])
              | _ => (Except.error Fault.TypeMismatch, s)
          | none => (Except.error Fault.InvalidPattern, s ++ [x])
      | _ => (Except.error Fault.TypeMismatch, s ++ [x]) := by
  rw [ValueStack.append_pair]
  simp only [Action.execute, matchStringAsRegex, Action.setAtom, Action.mk0, VM.bind_apply,
    ValueStack.pop_concat]
  cases y with
  | INT i => rfl
  | FLOAT f => rfl
  | STRING pattern =>
    simp only [Value.getString, VM.ofExcept_ok]
    cases re pattern perl_icase with
    | none => rfl
    | some rx =>
      simp only [VM.pure_apply, ValueStack.pop_concat]
      cases x <;> rfl

theorem frame_matchStringAsRegex (re : RegexCompiler) (pa : pAtom) (s s1 : ValueStack)
    (h : (matchStringAsRegex.setAtom pa).execute re s = (Except.ok (), s1)) :
    ∃ rest x y v, s = rest ++ [x, y] ∧ s1 = rest ++ [v] := by
  rcases stack_cases s with rfl | ⟨x, rfl⟩ | ⟨rest, x, y, rfl⟩
  · have h0 : (matchStringAsRegex.setAtom pa).execute re []
        = (Except.error Fault.StackUnderflow, []) := rfl
    rw [h0] at h; simp at h
  · rw [matchStringAsRegex_execute_single] at h
    cases x with
    | INT i => simp at h
    | FLOAT f => simp at h
    | STRING t =>
      simp only at h
      cases hr : re t perl_icase <;> rw [hr] at h <;> simp at h
  · rw [matchStringAsRegex_execute_general] at h
    cases y with
    | INT i => simp at h
    | FLOAT f => simp at h
    | STRING pattern =>
      simp only at h
      cases hr : re pattern perl_icase with
      | none => rw [hr] at h; simp at h
      | some rx =>
        rw [hr] at h
        cases x <;> simp at h
        exact ⟨rest, _, _, _, rfl, h.symm⟩

theorem frame_of_push (s s1 : ValueStack) (v : Value)
    (h : ValueStack.push v s = (Except.ok (), s1)) (k : Kind)
    (hk : k.operands = 0) (hd : k.depthChange = 1) :
    ∃ rest popped pushed, s = rest ++ popped ∧ s1 = rest ++ pushed ∧
      popped.length = k.operands ∧ (s1.length : Int) = (s.length : Int) + k.depthChange := by
  simp only [ValueStack.push_apply, Prod.mk.injEq, true_and] at h
  subst h
  refine ⟨s, [], [v], by simp, rfl, by simp [hk], ?_⟩
  simp [hd]

theorem frame_of_two (s s1 : ValueStack) (k : Kind)
    (h : ∃ rest x y v, s = rest ++ [x, y] ∧ s1 = rest ++ [v])
    (hk : k.operands = 2) (hd : k.depthChange = -1) :
    ∃ rest popped pushed, s = rest ++ popped ∧ s1 = rest ++ pushed ∧
      popped.length = k.operands ∧ (s1.length : Int) = (s.length : Int) + k.depthChange := by
  obtain ⟨rest, x, y, v, rfl, rfl⟩ := h
  refine ⟨rest, [x, y], [v], rfl, rfl, by simp [hk], ?_⟩
  simp [hd]
  omega

theorem frame_of_one (s s1 : ValueStack) (k : Kind)
    (h : ∃ rest x v, s = rest ++ [x] ∧ s1 = rest ++ [v])
    (hk : k.operands = 1) (hd : k.depthChange = 0) :
    ∃ rest popped pushed, s = rest ++ popped ∧ s1 = rest ++ pushed ∧
      popped.length = k.operands ∧ (s1.length : Int) = (s.length : Int) + k.depthChange := by
  obtain ⟨rest, x, v, rfl, rfl⟩ := h
  refine ⟨rest, [x], [v], rfl, rfl, by simp [hk], ?_⟩
  simp [hd]

/-- C29: stack framing.  An opcode that succeeds on the stack `s` changes only
its top: `s` is `rest ++ popped` and the resulting stack is `rest ++ pushed`, where
`popped` holds the operands the kind consumes (none for the pushes and `dup`, one
for `drop`, `matchRegex` and `logicalNot`, two for the relational opcodes,
`matchStringAsRegex`, `logicalAnd` and `logicalOr`) and `rest`, what lies below
them, is unchanged and in order.  The depth changes by the fixed amount of the
kind: +1 for the literal pushes, the atom-property pushes and `dup`; -1 for `drop`,
the five relational opcodes, `matchStringAsRegex`, `logicalAnd` and `logicalOr`; 0
for `matchRegex` and `logicalNot`. -/
theorem stack_framing (re : RegexCompiler) (a : Action) (s s1 : ValueStack)
    (h : a.execute re s = (Except.ok (), s1)) :
    ∃ rest popped pushed, s = rest ++ popped ∧ s1 = rest ++ pushed ∧
      popped.length = a.kind.operands ∧
      (s1.length : Int) = (s.length : Int) + a.kind.depthChange := by
  obtain ⟨at0, nm, k⟩ := a
  cases k with
  | pushString val => exact frame_of_push s s1 val h _ rfl rfl
  | pushInt val => exact frame_of_push s s1 val h _ rfl rfl
  | pushFloat val => exact frame_of_push s s1 val h _ rfl rfl
  | drop =>
    have h1 : ValueStack.drop s = (Except.ok (), s1) := h
    rcases List.eq_nil_or_concat s with rfl | ⟨rest, x, rfl⟩
    · rw [ValueStack.drop_nil] at h1; simp at h1
    · rw [List.concat_eq_append, ValueStack.drop_concat] at h1
      simp only [Prod.mk.injEq, true_and] at h1
      subst h1
      refine ⟨rest, [x], [], List.concat_eq_append _ _, by simp, rfl, ?_⟩
      simp [Kind.depthChange]
  | dup =>
    have h1 : ValueStack.dup s = (Except.ok (), s1) := h
    rcases List.eq_nil_or_concat s with rfl | ⟨rest, x, rfl⟩
    · rw [ValueStack.dup_nil] at h1; simp at h1
    · rw [List.concat_eq_append, ValueStack.dup_concat] at h1
      simp only [Prod.mk.injEq, true_and] at h1
      subst h1
      refine ⟨rest.concat x, [], [x], by simp, by simp, rfl, ?_⟩
      simp [Kind.depthChange]
      omega
  | equals => exact frame_of_two s s1 _ (frame_binComp_push _ s s1 h) rfl rfl
  | lessThan => exact frame_of_two s s1 _ (frame_binComp_push _ s s1 h) rfl rfl
  | lessThanEquals => exact frame_of_two s s1 _ (frame_binComp_push _ s s1 h) rfl rfl
  | greaterThan => exact frame_of_two s s1 _ (frame_binComp_push _ s s1 h) rfl rfl
  | greaterThanEquals => exact frame_of_two s s1 _ (frame_binComp_push _ s s1 h) rfl rfl
  | matchRegex regexp what =>
    exact frame_of_one s s1 _ (frame_matchRegex re at0 regexp what s s1 h) rfl rfl
  | matchStringAsRegex =>
    exact frame_of_two s s1 _ (frame_matchStringAsRegex re at0 s s1 h) rfl rfl
  | pushAtomName =>
    cases at0 with
    | none => exact absurd (congrArg Prod.fst h) (by simp [Action.execute, Action.hasAtom,
        VM.bind_apply, VM.fail_apply])
    | some at1 => exact frame_of_push s s1 (Value.STRING at1.name) h _ rfl rfl
  | pushAtomId =>
    cases at0 with
    | none => exact absurd (congrArg Prod.fst h) (by simp [Action.execute, Action.hasAtom,
        VM.bind_apply, VM.fail_apply])
    | some at1 => exact frame_of_push s s1 (Value.INT at1.id) h _ rfl rfl
  | pushAtomResname =>
    cases at0 with
    | none => exact absurd (congrArg Prod.fst h) (by simp [Action.execute, Action.hasAtom,
        VM.bind_apply, VM.fail_apply])
    | some at1 => exact frame_of_push s s1 (Value.STRING at1.resname) h _ rfl rfl
  | pushAtomResid =>
    cases at0 with
    | none => exact absurd (congrArg Prod.fst h) (by simp [Action.execute, Action.hasAtom,
        VM.bind_apply, VM.fail_apply])
    | some at1 => exact frame_of_push s s1 (Value.INT at1.resid) h _ rfl rfl
  | pushAtomSegid =>
    cases at0 with
    | none => exact absurd (congrArg Prod.fst h) (by simp [Action.execute, Action.hasAtom,
        VM.bind_apply, VM.fail_apply])
    | some at1 => exact frame_of_push s s1 (Value.STRING at1.segid) h _ rfl rfl
  | logicalAnd => exact frame_of_two s s1 _ (frame_logicalAnd re at0 s s1 h) rfl rfl
  | logicalOr => exact frame_of_two s s1 _ (frame_logicalOr re at0 s s1 h) rfl rfl
  | logicalNot => exact frame_of_one s s1 _ (frame_logicalNot re at0 s s1 h) rfl rfl

/-- Witness of C29: `lessThan` on a stack of three values leaves the bottom value
in place and replaces the two above it by one Integer. -/
theorem stack_framing_witness :
    lessThan.execute plainRegex [Value.STRING "below", Value.INT 1, Value.INT 2]
      = (Except.ok (), [Value.STRING "below", Value.INT 1]) ∧
    ∃ rest popped pushed,
      [Value.STRING "below", Value.INT 1, Value.INT 2] = rest ++ popped ∧
      [Value.STRING "below", Value.INT 1] = rest ++ pushed ∧
      popped.length = lessThan.kind.operands ∧
      (([Value.STRING "below", Value.INT 1] : ValueStack).length : Int)
        = (([Value.STRING "below", Value.INT 1, Value.INT 2] : ValueStack).length : Int)
          + lessThan.kind.depthChange :=
  ⟨rfl, stack_framing plainRegex lessThan [Value.STRING "below", Value.INT 1, Value.INT 2]
    [Value.STRING "below", Value.INT 1] rfl⟩

/-! ## Coordinates -/

/-- C22: the homogeneous-coordinate invariant of `Coord`.  The extra, fourth
element is 1 after every constructor (default, three-component, copy,
single-value), and on an object `c` whose fourth element is 1 it is 1 again after
every operation of the class: `set`, `zero`, assignment (from another object or
from itself), `+=`, `-=`, `*=`, `/=`, `%=`, `^=`, unary minus, `cross`, `reimage`,
`canonical`, the binary `+`, `-`, `*`, `/` and the scalar-on-the-left `+`, `-`,
`*`, `/`. -/
theorem coord_homogeneous_element_is_one (c rhs box : Coord) (t ax ay az : ℚ) (same : Bool)
    (hc : c.w = 1) :
    Coord.mkDefault.w = 1 ∧ (Coord.mkXYZ ax ay az).w = 1 ∧ (Coord.mkCopy rhs).w = 1 ∧
    (Coord.mkScalar t).w = 1 ∧
    (Coord.set ax ay az).w = 1 ∧ Coord.zero.w = 1 ∧ (c.assign rhs false).w = 1 ∧
    (c.assign c same).w = 1 ∧
    (c.plusEq rhs).w = 1 ∧ (c.minusEq rhs).w = 1 ∧ (c.timesEq t).w = 1 ∧ (c.divEq t).w = 1 ∧
    (c.modEq rhs).w = 1 ∧ (c.crossEq rhs).w = 1 ∧ c.neg.w = 1 ∧ (c.cross rhs).w = 1 ∧
    (c.reimage box).w = 1 ∧ (c.canonical box).w = 1 ∧
    (c.plus rhs).w = 1 ∧ (c.minus rhs).w = 1 ∧ (c.times t).w = 1 ∧ (c.div t).w = 1 ∧
    (Coord.scalarPlus t c).w = 1 ∧ (Coord.scalarMinus t c).w = 1 ∧
    (Coord.scalarTimes t c).w = 1 ∧ (Coord.scalarDiv t c).w = 1 := by
  refine ⟨rfl, rfl, rfl, rfl, rfl, rfl, rfl, ?_, hc, hc, hc, hc, hc, rfl, rfl, rfl, hc, hc,
    rfl, rfl, rfl, rfl, rfl, rfl, rfl, rfl⟩
  cases same
  · rfl
  · exact hc

/-- Witness of C22: the coordinate (1, -2, 3). -/
theorem coord_homogeneous_element_is_one_witness :
    (Coord.mkXYZ 1 (-2) 3).w = 1 ∧
    ((Coord.mkXYZ 1 (-2) 3).plusEq (Coord.mkXYZ 5 5 5)).w = 1 ∧
    ((Coord.mkXYZ 1 (-2) 3).reimage (Coord.mkXYZ 2 2 2)).w = 1 :=
  have h := coord_homogeneous_element_is_one (Coord.mkXYZ 1 (-2) 3) (Coord.mkXYZ 5 5 5)
    (Coord.mkXYZ 2 2 2) 7 1 1 1 true rfl
  ⟨rfl, h.2.2.2.2.2.2.2.2.1, h.2.2.2.2.2.2.2.2.2.2.2.2.2.2.2.2.1⟩

/-- C23: scalar addition and scalar multiplication on `Coord` are symmetric in
the scalar.  For every scalar `t` and every `Coord` `v`, `t + v` equals `v + t`,
each with the components `v.x + t`, `v.y + t`, `v.z + t`, and `t * v` equals
`v * t`, each with the components `t * v.x`, `t * v.y`, `t * v.z`; the fourth
element is 1 in all of them. -/
theorem coord_scalar_symmetric (t : ℚ) (v : Coord) :
    Coord.scalarPlus t v = v.plus (Coord.mkScalar t) ∧
    Coord.scalarPlus t v = { x := v.x + t, y := v.y + t, z := v.z + t, w := 1 } ∧
    Coord.scalarTimes t v = v.times t ∧
    Coord.scalarTimes t v = { x := t * v.x, y := t * v.y, z := t * v.z, w := 1 } := by
  refine ⟨rfl, rfl, rfl, ?_⟩
  simp [Coord.scalarTimes, Coord.timesEq, Coord.mkCopy, Coord.copyFrom, mul_comm]

theorem ceil_neg_half : ⌈(-(1 / 2) : ℚ)⌉ = 0 := by
  rw [Int.ceil_eq_iff]
  norm_num

/-- C24, the code at the failing input: with the box (1, 1, 1), `canonical` takes
the coordinate (-2, 0, 0) to (-1, 0, 0).  The first component is -1: it
differs from -2 by the box length, yet it lies below -1/2, outside the unit
cell. -/
theorem canonical_leaves_unit_cell :
    (Coord.mkXYZ (-2) 0 0).canonical (Coord.mkXYZ 1 1 1)
      = { x := -1, y := 0, z := 0, w := 1 } ∧
    ¬ (-((Coord.mkXYZ 1 1 1).x / 2) ≤ ((Coord.mkXYZ (-2) 0 0).canonical (Coord.mkXYZ 1 1 1)).x) := by
  have hx : Coord.canonical1 (-2) 1 = -1 := by
    norm_num [Coord.canonical1, fmod, truncToInt, ceil_neg_half]
  have h0 : Coord.canonical1 0 1 = 0 := by
    have hf : ⌊(3 / 2 : ℚ)⌋ = 1 := by
      rw [Int.floor_eq_iff]
      norm_num
    norm_num [Coord.canonical1, fmod, truncToInt, hf]
  have hc : (Coord.mkXYZ (-2) 0 0).canonical (Coord.mkXYZ 1 1 1)
      = { x := -1, y := 0, z := 0, w := 1 } := by
    simp only [Coord.canonical, Coord.mkXYZ, Coord.set, hx, h0]
  refine ⟨hc, ?_⟩
  rw [hc]
  norm_num [Coord.mkXYZ, Coord.set]

theorem truncToInt_of_nonneg (q : ℚ) (h : 0 ≤ q) : truncToInt q = ⌊q⌋ := by
  simp [truncToInt, h]

theorem castToInt_of_nonneg (q : ℚ) (h : 0 ≤ q) (hq : q < 2147483648) : castToInt q = ⌊q⌋ := by
  have hn : truncToInt q = ⌊q⌋ := truncToInt_of_nonneg q h
  have h0 : (0 : Int) ≤ ⌊q⌋ := Int.floor_nonneg.mpr h
  have h1 : ⌊q⌋ < 2147483648 := by
    have : (⌊q⌋ : ℚ) < 2147483648 := lt_of_le_of_lt (Int.floor_le q) hq
    exact_mod_cast this
  unfold castToInt
  simp only [hn, INT_MIN, INT_MAX]
  rw [if_pos ⟨by omega, by omega⟩]

/-- One component of `reimage`, for a positive box length and a number of box
lengths that the `int` can hold. -/
theorem reimage1_spec (v b : ℚ) (hb : 0 < b) (hr : |v| / b + 1 / 2 < 2147483648) :
    |Coord.reimage1 v b| ≤ b / 2 ∧ ∃ k : Int, Coord.reimage1 v b = v + (k : ℚ) * b := by
  have ha : 0 ≤ |v| / b + 1 / 2 := by positivity
  have hn : castToInt (|v| / b + 1 / 2) = ⌊|v| / b + 1 / 2⌋ := castToInt_of_nonneg _ ha hr
  have h1 : (⌊|v| / b + 1 / 2⌋ : ℚ) ≤ |v| / b + 1 / 2 := Int.floor_le _
  have h2 : |v| / b + 1 / 2 < (⌊|v| / b + 1 / 2⌋ : ℚ) + 1 := Int.lt_floor_add_one _
  have hv : |v| / b * b = |v| := div_mul_cancel₀ _ hb.ne'
  have h3 : (⌊|v| / b + 1 / 2⌋ : ℚ) * b ≤ |v| + b / 2 := by
    have := mul_le_mul_of_nonneg_right h1 hb.le
    nlinarith
  have h4 : |v| + b / 2 < ((⌊|v| / b + 1 / 2⌋ : ℚ) + 1) * b := by
    have := mul_lt_mul_of_pos_right h2 hb
    nlinarith
  unfold Coord.reimage1
  simp only [hn]
  by_cases hv0 : v ≥ 0
  · have habs : |v| = v := abs_of_nonneg hv0
    rw [habs] at h3 h4
    simp only [hv0, if_true, habs]
    refine ⟨?_, -⌊v / b + 1 / 2⌋, ?_⟩
    · rw [abs_le]
      constructor <;> nlinarith
    · push_cast
      ring
  · have hneg : v < 0 := not_le.mp hv0
    have habs : |v| = -v := abs_of_neg hneg
    rw [habs] at h3 h4
    simp only [hv0, if_false, habs]
    refine ⟨?_, ⌊-v / b + 1 / 2⌋, rfl⟩
    rw [abs_le]
    constructor <;> nlinarith

/-- The cast at the coordinate 10^10 in a box of length 1: the truncated value
10^10 is above `INT_MAX`. -/
theorem castToInt_ten_billion : castToInt (|(10000000000 : ℚ)| / 1 + 1 / 2) = INT_MIN := by
  have hf : ⌊(10000000000 : ℚ) + 1 / 2⌋ = 10000000000 := by
    rw [Int.floor_eq_iff]
    constructor <;> norm_num
  have ht : truncToInt (|(10000000000 : ℚ)| / 1 + 1 / 2) = 10000000000 := by
    rw [truncToInt_of_nonneg _ (by positivity)]
    rw [abs_of_nonneg (by norm_num), div_one]
    exact hf
  unfold castToInt
  simp only [ht, INT_MIN, INT_MAX]
  rw [if_neg (by omega)]

/-- No value up to `INT_MAX` brings the coordinate 10^10 into a box of length 1:
whatever 32-bit `int` the cast yields there, the result of `v - n*box` is
outside. -/
theorem no_int_reimages_ten_billion (n : Int) (h1 : n ≤ INT_MAX) :
    ¬ |(10000000000 : ℚ) - (n : ℚ) * 1| ≤ 1 / 2 := by
  have h2 : (n : ℚ) ≤ 2147483647 := by
    have : n ≤ 2147483647 := h1
    exact_mod_cast this
  rw [abs_le]
  intro h
  linarith [h.2]

/-- C27, the claim as stated fails: the coordinate (10^10, 0, 0) in the box
(1, 1, 1).  The number of box lengths, 10^10, does not fit the `int n` of
`reimage`; the cast gives `INT_MIN`, the first component of the result is
12147483648, and its absolute value is not at most half the box length. -/
theorem reimage_int_overflow_counterexample :
    (0 : ℚ) < (Coord.mkXYZ 1 1 1).x ∧ (0 : ℚ) < (Coord.mkXYZ 1 1 1).y ∧
    (0 : ℚ) < (Coord.mkXYZ 1 1 1).z ∧
    ((Coord.mkXYZ 10000000000 0 0).reimage (Coord.mkXYZ 1 1 1)).x = 12147483648 ∧
    ¬ |((Coord.mkXYZ 10000000000 0 0).reimage (Coord.mkXYZ 1 1 1)).x|
        ≤ (Coord.mkXYZ 1 1 1).x / 2 := by
  have hx : ((Coord.mkXYZ 10000000000 0 0).reimage (Coord.mkXYZ 1 1 1)).x = 12147483648 := by
    simp only [Coord.reimage, Coord.reimage1, Coord.mkXYZ, Coord.set, castToInt_ten_billion,
      INT_MIN]
    norm_num
  refine ⟨by norm_num [Coord.mkXYZ, Coord.set], by norm_num [Coord.mkXYZ, Coord.set],
    by norm_num [Coord.mkXYZ, Coord.set], hx, ?_⟩
  rw [hx]
  norm_num [Coord.mkXYZ, Coord.set]

/-- C27, amended: `reimage` applies the minimum-image convention as long as the
number of box lengths fits the `int n` of the code.  For every box with positive
components and every coordinate with `|v|/box + 1/2 < 2^31` in each component,
each component `r` of the result satisfies `|r| <= box/2` and differs from the
original component by an integer multiple of the corresponding box component
(exact arithmetic, the `int` cast being truncation to a 32-bit `int`). -/
theorem reimage_minimum_image_within_int (c box : Coord) (hx : 0 < box.x) (hy : 0 < box.y)
    (hz : 0 < box.z) (hrx : |c.x| / box.x + 1 / 2 < 2147483648)
    (hry : |c.y| / box.y + 1 / 2 < 2147483648) (hrz : |c.z| / box.z + 1 / 2 < 2147483648) :
    (|(c.reimage box).x| ≤ box.x / 2 ∧ ∃ k : Int, (c.reimage box).x = c.x + (k : ℚ) * box.x) ∧
    (|(c.reimage box).y| ≤ box.y / 2 ∧ ∃ k : Int, (c.reimage box).y = c.y + (k : ℚ) * box.y) ∧
    (|(c.reimage box).z| ≤ box.z / 2 ∧ ∃ k : Int, (c.reimage box).z = c.z + (k : ℚ) * box.z) :=
  ⟨reimage1_spec c.x box.x hx hrx, reimage1_spec c.y box.y hy hry,
    reimage1_spec c.z box.z hz hrz⟩

/-- Witness of C27, amended: the coordinate (7, -7, 1/2) in the box (4, 4, 4). -/
theorem reimage_minimum_image_within_int_witness :
    (0 : ℚ) < (Coord.mkXYZ 4 4 4).x ∧
    |(Coord.mkXYZ 7 (-7) (1 / 2)).x| / (Coord.mkXYZ 4 4 4).x + 1 / 2 < 2147483648 ∧
    |((Coord.mkXYZ 7 (-7) (1 / 2)).reimage (Coord.mkXYZ 4 4 4)).x| ≤ (Coord.mkXYZ 4 4 4).x / 2 ∧
    (∃ k : Int, ((Coord.mkXYZ 7 (-7) (1 / 2)).reimage (Coord.mkXYZ 4 4 4)).x
        = (Coord.mkXYZ 7 (-7) (1 / 2)).x + (k : ℚ) * (Coord.mkXYZ 4 4 4).x) :=
  have h4 : (0 : ℚ) < 4 := by norm_num
  have r7 : |(7 : ℚ)| / 4 + 1 / 2 < 2147483648 := by norm_num [abs_of_nonneg]
  have rm7 : |(-7 : ℚ)| / 4 + 1 / 2 < 2147483648 := by norm_num [abs_of_nonneg]
  have rh : |(1 / 2 : ℚ)| / 4 + 1 / 2 < 2147483648 := by norm_num [abs_of_nonneg]
  ⟨h4, r7,
    (reimage_minimum_image_within_int (Coord.mkXYZ 7 (-7) (1 / 2)) (Coord.mkXYZ 4 4 4) h4 h4 h4
      r7 rm7 rh).1⟩

/-- What `canonical` does achieve: for a positive box length the result differs
from the original by an integer multiple of the box length whatever the
coordinate, and it lies in the unit cell as soon as the coordinate is not below
`-1.5` box lengths. -/
theorem canonical1_partial (v b : ℚ) (hb : 0 < b) :
    (∃ k : Int, Coord.canonical1 v b = v + (k : ℚ) * b) ∧
    (-(3 / 2 * b) ≤ v → -(b / 2) ≤ Coord.canonical1 v b ∧ Coord.canonical1 v b < b / 2) := by
  constructor
  · refine ⟨1 - truncToInt ((v + 3 / 2 * b) / b), ?_⟩
    simp only [Coord.canonical1, fmod]
    push_cast
    ring
  · intro hv
    have hq : 0 ≤ (v + 3 / 2 * b) / b := div_nonneg (by linarith) hb.le
    have hn : truncToInt ((v + 3 / 2 * b) / b) = ⌊(v + 3 / 2 * b) / b⌋ :=
      truncToInt_of_nonneg _ hq
    have h1 : (⌊(v + 3 / 2 * b) / b⌋ : ℚ) ≤ (v + 3 / 2 * b) / b := Int.floor_le _
    have h2 : (v + 3 / 2 * b) / b < (⌊(v + 3 / 2 * b) / b⌋ : ℚ) + 1 := Int.lt_floor_add_one _
    have hm : (v + 3 / 2 * b) / b * b = v + 3 / 2 * b := div_mul_cancel₀ _ hb.ne'
    have h3 := mul_le_mul_of_nonneg_right h1 hb.le
    have h4 := mul_lt_mul_of_pos_right h2 hb
    rw [hm] at h3 h4
    simp only [Coord.canonical1, fmod, hn]
    constructor <;> nlinarith

/-! ## System factories -/

theorem advertisedTypes_system :
    advertisedTypes availableSystemFileTypes = ["crd", "gro", "pdb", "prmtop", "psf", "xyz"] := by
  decide

/-- C25: `createSystemPtr(filename, filetype)` accepts exactly the system file
types that `availableSystemFileTypes` advertises, which are "crd", "gro", "pdb",
"prmtop", "psf" and "xyz".  For each of them it constructs the reader of that
type on the file name; the comparison is case-sensitive ("PDB" is refused); for
every other file type it throws the unknown-system-file-type error and constructs
no reader. -/
theorem createSystemPtr_accepts_advertised (filename filetype : String) :
    advertisedTypes availableSystemFileTypes = ["crd", "gro", "pdb", "prmtop", "psf", "xyz"] ∧
    ((∃ r, createSystemPtr filename filetype = Except.ok r)
      ↔ filetype ∈ advertisedTypes availableSystemFileTypes) ∧
    (createSystemPtr filename filetype
        = Except.error (FactoryError.unknownSystemFileType filetype filename)
      ↔ filetype ∉ advertisedTypes availableSystemFileTypes) ∧
    createSystemPtr filename "crd" = Except.ok (SystemReader.CHARMM filename) ∧
    createSystemPtr filename "gro" = Except.ok (SystemReader.Gromacs filename) ∧
    createSystemPtr filename "pdb" = Except.ok (SystemReader.PDB filename) ∧
    createSystemPtr filename "prmtop" = Except.ok (SystemReader.Amber filename) ∧
    createSystemPtr filename "psf" = Except.ok (SystemReader.PSF filename) ∧
    createSystemPtr filename "xyz" = Except.ok (SystemReader.TinkerXYZ filename) ∧
    createSystemPtr filename "PDB"
      = Except.error (FactoryError.unknownSystemFileType "PDB" filename) := by
  refine ⟨advertisedTypes_system, ?_, ?_, rfl, rfl, rfl, rfl, rfl, rfl, rfl⟩
  · rw [advertisedTypes_system]
    unfold createSystemPtr
    split_ifs <;> simp_all
  · rw [advertisedTypes_system]
    unfold createSystemPtr
    split_ifs <;> simp_all

/-! ## Scaling of eigenvalue power -/

theorem scalePowerSums_eq (A B : List ℚ) (acc : ℚ × ℚ) (h : B.length ≤ A.length) :
    scalePowerSums A B acc = some (acc.1 + B.sum, acc.2 + (A.take B.length).sum) := by
  induction B generalizing A acc with
  | nil => simp [scalePowerSums]
  | cons b bs ih =>
    cases A with
    | nil => simp at h
    | cons a as =>
      have h1 : bs.length ≤ as.length := by simpa using h
      simp only [scalePowerSums, ih as _ h1, List.sum_cons, List.length_cons, List.take_succ_cons]
      congr 2 <;> ring

/-- C28: `scalePower(A, B)` scales the right-side eigenvalues to the total power
of the left side.  For column vectors `A` and `B` with `B.rows() <= A.rows()` and
a non-zero sum of `B`, the result `E` has `B.rows()` entries, each
`E[j] = B[j] * (sumA / sumB)` where `sumA` and `sumB` are the sums of the first
`B.rows()` entries of `A` and of `B`, so the entries of `E` sum to `sumA` (exact
arithmetic). -/
theorem scalePower_matches_left_power (A B : List ℚ) (hrows : B.length ≤ A.length)
    (hsum : B.sum ≠ 0) :
    ∃ E, scalePower A B = some E ∧ E.length = B.length ∧
      (∀ j : Nat, E[j]? = (B[j]?).map (fun b => b * ((A.take B.length).sum / B.sum))) ∧
      E.sum = (A.take B.length).sum := by
  refine ⟨B.map (fun b => b * ((A.take B.length).sum / B.sum)), ?_, by simp, ?_, ?_⟩
  · unfold scalePower
    rw [scalePowerSums_eq A B (0, 0) hrows]
    simp
  · intro j
    simp
  · rw [List.sum_map_mul_right]
    field_simp

/-- Witness of C28: the left eigenvalues (6, 2, 5) and the right ones (1, 3). -/
theorem scalePower_matches_left_power_witness :
    ([1, 3] : List ℚ).length ≤ ([6, 2, 5] : List ℚ).length ∧ ([1, 3] : List ℚ).sum ≠ 0 ∧
    ∃ E, scalePower [6, 2, 5] [1, 3] = some E ∧ E.length = ([1, 3] : List ℚ).length ∧
      (∀ j : Nat, E[j]? = (([1, 3] : List ℚ)[j]?).map
        (fun b => b * ((([6, 2, 5] : List ℚ).take ([1, 3] : List ℚ).length).sum
          / ([1, 3] : List ℚ).sum))) ∧
      E.sum = (([6, 2, 5] : List ℚ).take ([1, 3] : List ℚ).length).sum :=
  ⟨by decide, by norm_num,
    scalePower_matches_left_power [6, 2, 5] [1, 3] (by decide) (by norm_num)⟩

/-! ## Complementary relations -/

/-- C31: the relational opcodes are complementary.  On every stack `s ++ [l, r]`
on which `compare l r` is defined, the five relational opcodes succeed, each
leaving `s` with one Integer pushed, and `lessThanEquals` pushes Integer 1
exactly when `greaterThan` pushes Integer 0, `greaterThanEquals` pushes Integer 1
exactly when `lessThan` pushes Integer 0, and `lessThanEquals` pushes Integer 1
exactly when `lessThan` or `equals` does. -/
theorem relational_complementary (re : RegexCompiler) (pa : pAtom) (s : ValueStack)
    (l r : Value) (c : Int) (h : compare l r = Except.ok c) :
    ∃ vle vgt vge vlt veq : Int,
      (lessThanEquals.setAtom pa).execute re (s ++ [l, r]) = (Except.ok (), s ++ [Value.INT vle]) ∧
      (greaterThan.setAtom pa).execute re (s ++ [l, r]) = (Except.ok (), s ++ [Value.INT vgt]) ∧
      (greaterThanEquals.setAtom pa).execute re (s ++ [l, r])
        = (Except.ok (), s ++ [Value.INT vge]) ∧
      (lessThan.setAtom pa).execute re (s ++ [l, r]) = (Except.ok (), s ++ [Value.INT vlt]) ∧
      (equals.setAtom pa).execute re (s ++ [l, r]) = (Except.ok (), s ++ [Value.INT veq]) ∧
      (vle = 1 ↔ vgt = 0) ∧ (vge = 1 ↔ vlt = 0) ∧ (vle = 1 ↔ (vlt = 1 ∨ veq = 1)) := by
  have hb := Action.binComp_of_compare s l r c h
  refine ⟨if c ≤ 0 then 1 else 0, if c > 0 then 1 else 0, if c ≥ 0 then 1 else 0,
    if c < 0 then 1 else 0, if c = 0 then 1 else 0, ?_, ?_, ?_, ?_, ?_, ?_, ?_, ?_⟩
  · rw [lessThanEquals_execute_of_binComp re pa _ s c hb]; split <;> rfl
  · rw [greaterThan_execute_of_binComp re pa _ s c hb]; split <;> rfl
  · rw [greaterThanEquals_execute_of_binComp re pa _ s c hb]; split <;> rfl
  · rw [lessThan_execute_of_binComp re pa _ s c hb]; split <;> rfl
  · rw [equals_execute_of_binComp re pa _ s c hb]; split <;> rfl
  · by_cases h1 : c ≤ 0
    · simp [h1, not_lt.mpr h1]
    · simp [h1, not_le.mp h1]
  · by_cases h1 : c < 0
    · simp [h1, not_le.mpr h1]
    · simp [h1, not_lt.mp h1]
  · rcases lt_trichotomy c 0 with hlt | heq | hgt
    · simp [hlt, hlt.le]
    · simp [heq]
    · simp [not_le.mpr hgt, not_lt.mpr hgt.le, hgt.ne']

/-- Witness of C31: the text "ALA" below the text "GLY". -/
theorem relational_complementary_witness :
    compare (Value.STRING "ALA") (Value.STRING "GLY") = Except.ok (-1) ∧
    ∃ vle vgt vge vlt veq : Int,
      (lessThanEquals.setAtom none).execute plainRegex
          ([] ++ [Value.STRING "ALA", Value.STRING "GLY"]) = (Except.ok (), [] ++ [Value.INT vle]) ∧
      (greaterThan.setAtom none).execute plainRegex
          ([] ++ [Value.STRING "ALA", Value.STRING "GLY"]) = (Except.ok (), [] ++ [Value.INT vgt]) ∧
      (greaterThanEquals.setAtom none).execute plainRegex
          ([] ++ [Value.STRING "ALA", Value.STRING "GLY"]) = (Except.ok (), [] ++ [Value.INT vge]) ∧
      (lessThan.setAtom none).execute plainRegex
          ([] ++ [Value.STRING "ALA", Value.STRING "GLY"]) = (Except.ok (), [] ++ [Value.INT vlt]) ∧
      (equals.setAtom none).execute plainRegex
          ([] ++ [Value.STRING "ALA", Value.STRING "GLY"]) = (Except.ok (), [] ++ [Value.INT veq]) ∧
      (vle = 1 ↔ vgt = 0) ∧ (vge = 1 ↔ vlt = 0) ∧ (vle = 1 ↔ (vlt = 1 ∨ veq = 1)) :=
  ⟨rfl, relational_complementary plainRegex none [] (Value.STRING "ALA") (Value.STRING "GLY")
    (-1) rfl⟩

/-! ## Trajectory factories -/

theorem advertisedTrajectorySuffixes_eq (hasNetcdf : Bool) :
    advertisedTrajectorySuffixes hasNetcdf =
      if hasNetcdf then
        ["dcd", "nc", "mdcrd", "crd", "rst", "rst7", "impcrd", "pdb", "arc", "xtc", "trr"]
      else ["dcd", "mdcrd", "crd", "rst", "rst7", "impcrd", "pdb", "arc", "xtc", "trr"] := by
  cases hasNetcdf <;> rfl

/-- The advertised text holds one line `suffix = type` for each advertised
entry; without NetCDF it reads as follows. -/
theorem availableTrajectoryFileTypes_without_netcdf :
    availableTrajectoryFileTypes false =
      "dcd = CHARMM/NAMD DCD" ++ newline ++ "mdcrd = Amber Trajectory" ++ newline ++
      "crd = Amber Trajectory" ++ newline ++ "rst = Amber Restart" ++ newline ++
      "rst7 = Amber Restart" ++ newline ++ "impcrd = Amber Restart" ++ newline ++
      "pdb = Concatenated PDB" ++ newline ++ "arc = Tinker ARC" ++ newline ++
      "xtc = Gromacs XTC" ++ newline ++ "trr = Gromacs TRR" ++ newline := by
  rfl

/-- C32, the code at the failing input: the suffix "impcrd" is advertised by
`availableTrajectoryFileTypes` (it is an entry of `trajectory_name_bindings`, with
or without NetCDF), yet `createTrajectory`, given a model that has index
information, raises the unknown-trajectory-file-type error for it: the chain of
comparisons tests "inpcrd", which in turn is accepted though it is not
advertised.  All the other advertised suffixes are accepted. -/
theorem createTrajectory_rejects_advertised_impcrd (hasNetcdf : Bool)
    (isFileNetCDF : String → Bool) (filename : String) (natoms : Nat) :
    "impcrd" ∈ advertisedTrajectorySuffixes hasNetcdf ∧
    createTrajectory hasNetcdf isFileNetCDF filename "impcrd"
        { allHaveIndex := true, size := natoms }
      = Except.error (TrajectoryError.unknownTrajectoryFileType "impcrd" filename) ∧
    "inpcrd" ∉ advertisedTrajectorySuffixes hasNetcdf ∧
    createTrajectory hasNetcdf isFileNetCDF filename "inpcrd"
        { allHaveIndex := true, size := natoms }
      = Except.ok (TrajectoryReader.AmberRst filename natoms) ∧
    ((advertisedTrajectorySuffixes hasNetcdf).filter (fun suffix => suffix != "impcrd")).all
      (fun suffix => (createTrajectory hasNetcdf isFileNetCDF filename suffix
        { allHaveIndex := true, size := natoms }).isOk) = true := by
  refine ⟨?_, rfl, ?_, rfl, ?_⟩
  · rw [advertisedTrajectorySuffixes_eq]
    cases hasNetcdf <;> simp
  · rw [advertisedTrajectorySuffixes_eq]
    cases hasNetcdf <;> decide
  · rw [advertisedTrajectorySuffixes_eq]
    cases hasNetcdf
    · rfl
    · cases hn : isFileNetCDF filename <;>
        simp [List.filter, createTrajectory, hn, Except.isOk, Except.toBool]

end loos
